import Mathlib

/-!
Verification of the csvdoc package (github.com/tebruno99/csvdoc): a shallow
embedding in Lean 4 of the schema-resolution, header-binding and
string/value conversion engine, together with proofs about the claims of
its specification.

Modelling conventions:
* Go machine integers are `Int`/`Nat` with explicit range/overflow checks
  mirroring `reflect.Value.OverflowInt`/`OverflowUint` and
  `strconv.ParseInt`/`ParseUint` bit sizes.
* Go maps are association lists (`lookupA`/`insertA`); where the Go code
  iterates a map (whose order is unspecified) the model takes the
  enumeration as an explicit parameter, so order (in)dependence can be
  stated and proved.
* A Go runtime panic (index out of range, calling a nil function value) is
  modelled by `Option.none` at the outermost layer of the affected
  operation; errors returned as `error` values are `Except.error`.
* `strconv.FormatFloat(v, 'f', -1, 64)` / `strconv.ParseFloat` are modelled
  over exact decimal values (`GoFloat`, a mantissa/scale pair): Go's
  shortest-round-trip rendering corresponds to the canonical (no trailing
  zero) decimal form.  IEEE-754 NaN/Inf are outside the model.
* `time.Time` is modelled as broken-down civil time (`GoTime`) without a
  location: `Format(time.DateTime)` and the layout-list parsing of the
  converters are modelled as fixed-layout renderers/parsers.
-/

set_option maxHeartbeats 1000000

namespace Csvdoc

/-- Errors of the csvdoc package (src/errors.go), together with the shapes of
errors produced by the Go standard library calls the converters make
(`errors.New` messages, `strconv` syntax/range errors). -/
inductive GoError
  | structTagNotInCSV
  | duplicateHeaderInCSV
  | structTagDuplicate
  | converterNotFoundForType
  | notFoundHeaderInCSV
  | typeOverflow
  | toFewStructTags
  | goMsg (msg : String)
  | numSyntax
  | numRange
  deriving DecidableEq

/-- Association-list model of a Go map read `m[k]`: the first binding wins
(keys are kept unique by `insertA`). -/
def lookupA {α β : Type} [DecidableEq α] : List (α × β) → α → Option β
  | [], _ => none
  | (k, v) :: rest, a => if a = k then some v else lookupA rest a

/-- Association-list model of a Go map write `m[k] = v`: replaces the
existing binding, otherwise appends. -/
def insertA {α β : Type} [DecidableEq α] : List (α × β) → α → β → List (α × β)
  | [], a, b => [(a, b)]
  | (k, v) :: rest, a, b =>
    if a = k then (k, b) :: rest else (k, v) :: insertA rest a b

theorem lookupA_nil {α β : Type} [DecidableEq α] (a : α) :
    lookupA ([] : List (α × β)) a = none := rfl

theorem lookupA_cons {α β : Type} [DecidableEq α] (k a : α) (v : β) (rest : List (α × β)) :
    lookupA ((k, v) :: rest) a = if a = k then some v else lookupA rest a := rfl

/-- Decimal digit to character, as used by `strconv` formatting. -/
def digitChar (d : Nat) : Char := Char.ofNat (48 + d)

/-- Character to decimal digit, as used by `strconv` parsing. -/
def digitVal (c : Char) : Option Nat :=
  if '0' ≤ c ∧ c ≤ '9' then some (c.toNat - 48) else none

theorem digitVal_digitChar : ∀ d : Nat, d < 10 → digitVal (digitChar d) = some d := by
  decide

theorem digitChar_ne_dot : ∀ d : Nat, d < 10 → digitChar d ≠ '.' := by
  decide

theorem digitChar_ne_dash : ∀ d : Nat, d < 10 → digitChar d ≠ '-' := by
  decide

/-- Fuel-driven digit accumulator (structural recursion, so that the kernel
can evaluate it); `fuel` bounds the number of digits. -/
def formatNatAux : Nat → Nat → List Char → List Char
  | 0, _, acc => acc
  | fuel + 1, n, acc =>
    if n < 10 then digitChar n :: acc
    else formatNatAux fuel (n / 10) (digitChar (n % 10) :: acc)

/-- Big-endian decimal digit characters of a natural number; model of the
digit production of `strconv.FormatUint`. -/
def formatNatChars (n : Nat) : List Char := formatNatAux (n + 1) n []

theorem formatNatAux_eq_digits :
    ∀ (fuel n : Nat) (acc : List Char), n < 10 ^ fuel → 0 < n →
      formatNatAux fuel n acc = (Nat.digits 10 n).reverse.map digitChar ++ acc := by
  intro fuel
  induction fuel with
  | zero =>
    intro n acc hn hpos
    simp at hn
    omega
  | succ fuel ih =>
    intro n acc hn hpos
    by_cases hsmall : n < 10
    · rw [show formatNatAux (fuel + 1) n acc = digitChar n :: acc from by
        simp [formatNatAux, hsmall]]
      rw [Nat.digits_def' (by norm_num : 1 < 10) hpos]
      rw [Nat.mod_eq_of_lt hsmall, Nat.div_eq_of_lt hsmall]
      simp
    · rw [show formatNatAux (fuel + 1) n acc
          = formatNatAux fuel (n / 10) (digitChar (n % 10) :: acc) from by
        simp [formatNatAux, hsmall]]
      have hdivpos : 0 < n / 10 := Nat.div_pos (by omega) (by norm_num)
      have hdivlt : n / 10 < 10 ^ fuel := by
        rw [Nat.div_lt_iff_lt_mul (by norm_num)]
        calc n < 10 ^ (fuel + 1) := hn
          _ = 10 ^ fuel * 10 := by ring
      rw [ih (n / 10) (digitChar (n % 10) :: acc) hdivlt hdivpos]
      rw [Nat.digits_def' (by norm_num : 1 < 10) hpos]
      simp

theorem formatNatChars_eq_digits (n : Nat) :
    formatNatChars n = if n = 0 then ['0']
      else (Nat.digits 10 n).reverse.map digitChar := by
  by_cases h : n = 0
  · subst h
    rfl
  · rw [if_neg h]
    unfold formatNatChars
    have hlt : n < 10 ^ (n + 1) := by
      calc n < 10 ^ n := Nat.lt_pow_self (by norm_num) n
        _ ≤ 10 ^ (n + 1) := Nat.pow_le_pow_right (by norm_num) (by omega)
    rw [formatNatAux_eq_digits (n + 1) n [] hlt (by omega)]
    simp

/-- Accumulating decimal parser over characters (most significant first). -/
def parseNatAux : List Char → Nat → Option Nat
  | [], acc => some acc
  | c :: rest, acc =>
    match digitVal c with
    | some d => parseNatAux rest (acc * 10 + d)
    | none => none

/-- Decimal parser for a nonempty all-digit character list; model of the
digit consumption of `strconv.ParseUint`. -/
def parseNatChars (l : List Char) : Option Nat :=
  if l = [] then none else parseNatAux l 0

theorem parseNatAux_append (l₁ l₂ : List Char) (acc : Nat) :
    parseNatAux (l₁ ++ l₂) acc =
      match parseNatAux l₁ acc with
      | some m => parseNatAux l₂ m
      | none => none := by
  induction l₁ generalizing acc with
  | nil => simp [parseNatAux]
  | cons c rest ih =>
    simp only [List.cons_append, parseNatAux]
    cases digitVal c with
    | none => rfl
    | some d => exact ih _

theorem parseNatAux_digits (ds : List Nat) (acc : Nat) (h : ∀ d ∈ ds, d < 10) :
    parseNatAux (ds.map digitChar) acc
      = some (ds.foldl (fun a d => a * 10 + d) acc) := by
  induction ds generalizing acc with
  | nil => rfl
  | cons d rest ih =>
    have hd : d < 10 := h d (List.mem_cons_self ..)
    simp only [List.map_cons, parseNatAux, digitVal_digitChar d hd]
    exact ih _ (fun x hx => h x (List.mem_cons_of_mem _ hx))

theorem foldl_digits_eq (l : List Nat) (acc : Nat) :
    l.foldl (fun a d => a * 10 + d) acc
      = acc * 10 ^ l.length + Nat.ofDigits 10 l.reverse := by
  induction l generalizing acc with
  | nil => simp [Nat.ofDigits]
  | cons d rest ih =>
    simp only [List.foldl_cons, List.length_cons, List.reverse_cons, ih]
    rw [Nat.ofDigits_append]
    simp [Nat.ofDigits]
    ring

theorem parseNatAux_formatNatChars (n : Nat) :
    parseNatAux (formatNatChars n) 0 = some n := by
  by_cases h : n = 0
  · subst h; rfl
  · rw [formatNatChars_eq_digits]
    rw [if_neg h]
    have hds : ∀ d ∈ (Nat.digits 10 n).reverse, d < 10 := by
      intro d hd
      exact Nat.digits_lt_base (by norm_num) (List.mem_reverse.mp hd)
    rw [parseNatAux_digits _ _ hds, foldl_digits_eq]
    simp [Nat.ofDigits_digits]

theorem formatNatChars_ne_nil (n : Nat) : formatNatChars n ≠ [] := by
  rw [formatNatChars_eq_digits]
  by_cases h : n = 0
  · simp [h]
  · rw [if_neg h]
    intro hc
    have hne : Nat.digits 10 n ≠ [] := Nat.digits_ne_nil_iff_ne_zero.mpr h
    simp at hc
    exact hne hc

theorem parseNatChars_formatNatChars (n : Nat) :
    parseNatChars (formatNatChars n) = some n := by
  unfold parseNatChars
  rw [if_neg (formatNatChars_ne_nil n)]
  exact parseNatAux_formatNatChars n

theorem mem_formatNatChars_isDigit (n : Nat) :
    ∀ c ∈ formatNatChars n, (digitVal c).isSome := by
  intro c hc
  rw [formatNatChars_eq_digits] at hc
  by_cases h : n = 0
  · simp [h] at hc
    subst hc; decide
  · rw [if_neg h] at hc
    obtain ⟨d, hd, rfl⟩ := List.mem_map.mp hc
    have : d < 10 := Nat.digits_lt_base (by norm_num) (List.mem_reverse.mp hd)
    rw [digitVal_digitChar d this]
    rfl

theorem mem_formatNatChars_ne_dot (n : Nat) :
    ∀ c ∈ formatNatChars n, c ≠ '.' := by
  intro c hc
  have := mem_formatNatChars_isDigit n c hc
  intro h
  subst h
  simp [digitVal] at this

/-- Model of the digit/sign production of `strconv.FormatInt(v, 10)`. -/
def formatIntChars (v : Int) : List Char :=
  if v < 0 then '-' :: formatNatChars v.natAbs else formatNatChars v.natAbs

/-- Model of the digit/sign consumption of `strconv.ParseInt(s, 10, _)`
(an optional sign followed by a nonempty digit run). -/
def parseIntChars : List Char → Option Int
  | [] => none
  | c :: rest =>
    if c = '-' then (parseNatChars rest).map (fun n : Nat => -(n : Int))
    else if c = '+' then (parseNatChars rest).map (fun n : Nat => (n : Int))
    else (parseNatChars (c :: rest)).map (fun n : Nat => (n : Int))

theorem digit_ne_dash {c : Char} (hc : (digitVal c).isSome) : c ≠ '-' := by
  intro h; subst h; simp [digitVal] at hc

theorem digit_ne_plus {c : Char} (hc : (digitVal c).isSome) : c ≠ '+' := by
  intro h; subst h; simp [digitVal] at hc

theorem parseIntChars_cons (c : Char) (rest : List Char) :
    parseIntChars (c :: rest)
      = (if c = '-' then (parseNatChars rest).map (fun n : Nat => -(n : Int))
         else if c = '+' then (parseNatChars rest).map (fun n : Nat => (n : Int))
         else (parseNatChars (c :: rest)).map (fun n : Nat => (n : Int))) := rfl

theorem parseIntChars_formatIntChars (v : Int) :
    parseIntChars (formatIntChars v) = some v := by
  unfold formatIntChars
  by_cases h : v < 0
  · rw [if_pos h, parseIntChars_cons, if_pos rfl, parseNatChars_formatNatChars]
    show some (-((v.natAbs : Nat) : Int)) = some v
    have hv : -((v.natAbs : Nat) : Int) = v := by omega
    rw [hv]
  · rw [if_neg h]
    match hfm : formatNatChars v.natAbs, formatNatChars_ne_nil v.natAbs with
    | c :: rest, _ =>
      have hc : (digitVal c).isSome := by
        have := mem_formatNatChars_isDigit v.natAbs c
        rw [hfm] at this
        exact this (List.mem_cons_self ..)
      rw [parseIntChars_cons, if_neg (digit_ne_dash hc),
        if_neg (digit_ne_plus hc), ← hfm, parseNatChars_formatNatChars]
      show some ((v.natAbs : Nat) : Int) = some v
      have hv : ((v.natAbs : Nat) : Int) = v := by omega
      rw [hv]

/-- Model of an exact decimal value `m / 10 ^ k`, standing for a Go
`float64`.  `strconv.FormatFloat(v, 'f', -1, 64)` (shortest decimal that
round-trips) corresponds to the canonical form below. -/
structure GoFloat where
  m : Int
  k : Nat
  deriving DecidableEq

/-- Canonical decimal form: no trailing fractional zero, and integers carry
scale zero.  This is the form `strconv.FormatFloat(_, 'f', -1, 64)` emits. -/
def GoFloat.canonical (x : GoFloat) : Prop := x.k = 0 ∨ ¬ (10 : Int) ∣ x.m

instance (x : GoFloat) : Decidable x.canonical := by
  unfold GoFloat.canonical; infer_instance

/-- Zero-padded fixed-width decimal rendering (big-endian, `k` characters). -/
def padDigits : Nat → Nat → List Char
  | 0, _ => []
  | k + 1, n => padDigits k (n / 10) ++ [digitChar (n % 10)]

theorem padDigits_length (k n : Nat) : (padDigits k n).length = k := by
  induction k generalizing n with
  | zero => rfl
  | succ k ih => simp [padDigits, ih]

theorem mem_padDigits_isDigit (k n : Nat) :
    ∀ c ∈ padDigits k n, (digitVal c).isSome := by
  induction k generalizing n with
  | zero => intro c hc; simp [padDigits] at hc
  | succ k ih =>
    intro c hc
    simp only [padDigits, List.mem_append, List.mem_singleton] at hc
    rcases hc with hc | hc
    · exact ih _ c hc
    · subst hc
      rw [digitVal_digitChar _ (Nat.mod_lt _ (by norm_num))]
      rfl

theorem mem_padDigits_ne_dot (k n : Nat) : ∀ c ∈ padDigits k n, c ≠ '.' := by
  intro c hc he
  have := mem_padDigits_isDigit k n c hc
  subst he
  simp [digitVal] at this

/-- Model of `strconv.FormatFloat(v, 'f', -1, 64)`: decimal point notation
with no exponent.  On a canonical `GoFloat` this is Go's shortest
round-tripping output. -/
def formatFloatChars (x : GoFloat) : List Char :=
  if x.k = 0 then formatIntChars x.m
  else
    let a := x.m.natAbs
    let core := formatNatChars (a / 10 ^ x.k) ++ '.' :: padDigits x.k (a % 10 ^ x.k)
    if x.m < 0 then '-' :: core else core

/-- Parser for the fractional digit run: digits' value and count. -/
def parseFrac : List Char → Option (Nat × Nat)
  | [] => some (0, 0)
  | c :: rest =>
    match digitVal c, parseFrac rest with
    | some d, some (v, len) => some (d * 10 ^ len + v, len + 1)
    | _, _ => none

theorem parseFrac_append_digit (l : List Char) (d : Nat) (hd : d < 10) :
    parseFrac (l ++ [digitChar d])
      = (parseFrac l).map (fun p => (p.1 * 10 + d, p.2 + 1)) := by
  induction l with
  | nil => simp [parseFrac, digitVal_digitChar d hd]
  | cons c rest ih =>
    show (match digitVal c, parseFrac (rest ++ [digitChar d]) with
          | some dc, some (v, len) => some (dc * 10 ^ len + v, len + 1)
          | _, _ => none)
        = Option.map (fun p => (p.1 * 10 + d, p.2 + 1))
            (match digitVal c, parseFrac rest with
             | some dc, some (v, len) => some (dc * 10 ^ len + v, len + 1)
             | _, _ => none)
    rw [ih]
    cases digitVal c with
    | none =>
      cases parseFrac rest with
      | none => rfl
      | some p => obtain ⟨v, len⟩ := p; rfl
    | some dc =>
      cases parseFrac rest with
      | none => rfl
      | some p =>
        obtain ⟨v, len⟩ := p
        show some (dc * 10 ^ (len + 1) + (v * 10 + d), len + 1 + 1)
            = some ((dc * 10 ^ len + v) * 10 + d, len + 1 + 1)
        have hval : dc * 10 ^ (len + 1) + (v * 10 + d)
            = (dc * 10 ^ len + v) * 10 + d := by
          rw [pow_succ]; ring
        rw [hval]

theorem parseFrac_padDigits (k n : Nat) (h : n < 10 ^ k) :
    parseFrac (padDigits k n) = some (n, k) := by
  induction k generalizing n with
  | zero =>
    simp only [pow_zero, Nat.lt_one_iff] at h
    subst h; rfl
  | succ k ih =>
    have hdiv : n / 10 < 10 ^ k := by
      rw [Nat.div_lt_iff_lt_mul (by norm_num)]
      calc n < 10 ^ (k + 1) := h
        _ = 10 ^ k * 10 := by ring
    rw [show padDigits (k + 1) n = padDigits k (n / 10) ++ [digitChar (n % 10)]
        from rfl,
      parseFrac_append_digit _ _ (Nat.mod_lt _ (by norm_num)), ih _ hdiv]
    show some (n / 10 * 10 + n % 10, k + 1) = some (n, k + 1)
    have hval : n / 10 * 10 + n % 10 = n := by omega
    rw [hval]

/-- Core of `strconv.ParseFloat` restricted to plain (exponent-free) decimal
notation, the only shape the write converters emit. -/
def parseFloatCore (l : List Char) : Option GoFloat :=
  match l.span (fun c => c != '.') with
  | (ip, []) => (parseNatChars ip).map (fun n : Nat => GoFloat.mk (n : Int) 0)
  | (ip, _ :: frac) =>
    match parseNatChars ip, parseFrac frac with
    | some i, some (f, len) => some (GoFloat.mk ((i * 10 ^ len + f : Nat) : Int) len)
    | _, _ => none

/-- Model of `strconv.ParseFloat(s, 64)` on the decimal forms produced by
`formatFloatChars` (sign, digits, optional fractional part). -/
def parseFloatChars : List Char → Option GoFloat
  | [] => none
  | c :: rest =>
    if c = '-' then (parseFloatCore rest).map (fun x => GoFloat.mk (-x.m) x.k)
    else if c = '+' then parseFloatCore rest
    else parseFloatCore (c :: rest)

theorem parseFloatChars_cons (c : Char) (rest : List Char) :
    parseFloatChars (c :: rest)
      = (if c = '-' then (parseFloatCore rest).map (fun x => GoFloat.mk (-x.m) x.k)
         else if c = '+' then parseFloatCore rest
         else parseFloatCore (c :: rest)) := rfl

theorem takeWhile_no_dot (l : List Char) (h : ∀ c ∈ l, c ≠ '.') :
    l.takeWhile (fun c => c != '.') = l := by
  induction l with
  | nil => rfl
  | cons c rest ih =>
    have hc : (c != '.') = true := by
      simpa using h c (List.mem_cons_self ..)
    simp only [List.takeWhile_cons, hc, if_true, List.cons.injEq, true_and]
    exact ih (fun x hx => h x (List.mem_cons_of_mem _ hx))

theorem dropWhile_no_dot (l : List Char) (h : ∀ c ∈ l, c ≠ '.') :
    l.dropWhile (fun c => c != '.') = [] := by
  induction l with
  | nil => rfl
  | cons c rest ih =>
    have hc : (c != '.') = true := by
      simpa using h c (List.mem_cons_self ..)
    simp only [List.dropWhile_cons, hc, if_true]
    exact ih (fun x hx => h x (List.mem_cons_of_mem _ hx))

theorem span_no_dot (l : List Char) (h : ∀ c ∈ l, c ≠ '.') :
    l.span (fun c => c != '.') = (l, []) := by
  rw [List.span_eq_take_drop, takeWhile_no_dot l h, dropWhile_no_dot l h]

theorem takeWhile_dot_append (l₁ l₂ : List Char) (h : ∀ c ∈ l₁, c ≠ '.') :
    (l₁ ++ '.' :: l₂).takeWhile (fun c => c != '.') = l₁ := by
  induction l₁ with
  | nil => simp
  | cons c rest ih =>
    have hc : (c != '.') = true := by
      simpa using h c (List.mem_cons_self ..)
    simp only [List.cons_append, List.takeWhile_cons, hc, if_true,
      List.cons.injEq, true_and]
    exact ih (fun x hx => h x (List.mem_cons_of_mem _ hx))

theorem dropWhile_dot_append (l₁ l₂ : List Char) (h : ∀ c ∈ l₁, c ≠ '.') :
    (l₁ ++ '.' :: l₂).dropWhile (fun c => c != '.') = '.' :: l₂ := by
  induction l₁ with
  | nil => simp
  | cons c rest ih =>
    have hc : (c != '.') = true := by
      simpa using h c (List.mem_cons_self ..)
    simp only [List.cons_append, List.dropWhile_cons, hc, if_true]
    exact ih (fun x hx => h x (List.mem_cons_of_mem _ hx))

theorem span_dot_append (l₁ l₂ : List Char) (h : ∀ c ∈ l₁, c ≠ '.') :
    (l₁ ++ '.' :: l₂).span (fun c => c != '.') = (l₁, '.' :: l₂) := by
  rw [List.span_eq_take_drop, takeWhile_dot_append l₁ l₂ h,
    dropWhile_dot_append l₁ l₂ h]

theorem parseFloatCore_formatNat (a : Nat) :
    parseFloatCore (formatNatChars a) = some (GoFloat.mk (a : Int) 0) := by
  unfold parseFloatCore
  rw [span_no_dot _ (mem_formatNatChars_ne_dot a)]
  show (parseNatChars (formatNatChars a)).map (fun n : Nat => GoFloat.mk (n : Int) 0)
      = some (GoFloat.mk (a : Int) 0)
  rw [parseNatChars_formatNatChars]
  rfl

theorem parseFloatCore_decimal (a k : Nat) (_hk : 0 < k) :
    parseFloatCore (formatNatChars (a / 10 ^ k) ++ '.' :: padDigits k (a % 10 ^ k))
      = some (GoFloat.mk (a : Int) k) := by
  unfold parseFloatCore
  rw [span_dot_append _ _ (mem_formatNatChars_ne_dot _)]
  show (match parseNatChars (formatNatChars (a / 10 ^ k)),
          parseFrac (padDigits k (a % 10 ^ k)) with
        | some i, some (f, len) => some (GoFloat.mk ((i * 10 ^ len + f : Nat) : Int) len)
        | _, _ => none)
      = some (GoFloat.mk (a : Int) k)
  rw [parseNatChars_formatNatChars,
    parseFrac_padDigits k _ (Nat.mod_lt _ (by positivity))]
  show some (GoFloat.mk ((a / 10 ^ k * 10 ^ k + a % 10 ^ k : Nat) : Int) k)
      = some (GoFloat.mk (a : Int) k)
  have hval : a / 10 ^ k * 10 ^ k + a % 10 ^ k = a := by
    have hdm := Nat.div_add_mod a (10 ^ k)
    rw [Nat.mul_comm (10 ^ k) (a / 10 ^ k)] at hdm
    exact hdm
  rw [hval]

theorem parseFloatChars_of_digit_head (l : List Char)
    (hne : l ≠ []) (hdig : (digitVal l.headI).isSome) :
    parseFloatChars l = parseFloatCore l := by
  match l, hne with
  | c :: rest, _ =>
    simp only [List.headI] at hdig
    rw [parseFloatChars_cons, if_neg (digit_ne_dash hdig),
      if_neg (digit_ne_plus hdig)]

theorem headI_digit_formatNat (a : Nat) :
    (digitVal ((formatNatChars a).headI)).isSome := by
  match hfm : formatNatChars a, formatNatChars_ne_nil a with
  | c :: rest, _ =>
    have := mem_formatNatChars_isDigit a c
    rw [hfm] at this
    simpa [List.headI] using this (List.mem_cons_self ..)

theorem headI_digit_formatNat_append (a : Nat) (l : List Char) :
    (digitVal ((formatNatChars a ++ l).headI)).isSome := by
  match hfm : formatNatChars a, formatNatChars_ne_nil a with
  | c :: rest, _ =>
    have := mem_formatNatChars_isDigit a c
    rw [hfm] at this
    simpa [List.headI] using this (List.mem_cons_self ..)

theorem parseFloatChars_formatFloatChars (x : GoFloat) :
    parseFloatChars (formatFloatChars x) = some x := by
  obtain ⟨m, k⟩ := x
  unfold formatFloatChars
  by_cases hk : k = 0
  · subst hk
    rw [if_pos rfl]
    unfold formatIntChars
    by_cases hm : m < 0
    · rw [if_pos hm, parseFloatChars_cons, if_pos rfl, parseFloatCore_formatNat]
      show some (GoFloat.mk (-((m.natAbs : Nat) : Int)) 0) = some (GoFloat.mk m 0)
      have hv : -((m.natAbs : Nat) : Int) = m := by omega
      rw [hv]
    · rw [if_neg hm]
      rw [parseFloatChars_of_digit_head _ (formatNatChars_ne_nil _)
        (headI_digit_formatNat _), parseFloatCore_formatNat]
      show some (GoFloat.mk ((m.natAbs : Nat) : Int) 0) = some (GoFloat.mk m 0)
      have hv : ((m.natAbs : Nat) : Int) = m := by omega
      rw [hv]
  · rw [if_neg hk]
    by_cases hm : m < 0
    · rw [if_pos hm]
      show parseFloatChars ('-' :: (formatNatChars (m.natAbs / 10 ^ k) ++
          '.' :: padDigits k (m.natAbs % 10 ^ k))) = some (GoFloat.mk m k)
      rw [parseFloatChars_cons, if_pos rfl,
        parseFloatCore_decimal _ _ (Nat.pos_of_ne_zero hk)]
      show some (GoFloat.mk (-((m.natAbs : Nat) : Int)) k) = some (GoFloat.mk m k)
      have hv : -((m.natAbs : Nat) : Int) = m := by omega
      rw [hv]
    · rw [if_neg hm]
      show parseFloatChars (formatNatChars (m.natAbs / 10 ^ k) ++
          '.' :: padDigits k (m.natAbs % 10 ^ k)) = some (GoFloat.mk m k)
      rw [parseFloatChars_of_digit_head _ (by simp)
        (headI_digit_formatNat_append _ _),
        parseFloatCore_decimal _ _ (Nat.pos_of_ne_zero hk)]
      show some (GoFloat.mk ((m.natAbs : Nat) : Int) k) = some (GoFloat.mk m k)
      have hv : ((m.natAbs : Nat) : Int) = m := by omega
      rw [hv]

/-- Broken-down civil time standing for a Go `time.Time`.  The model carries
no location: rendering and parsing of zone-less layouts act on these fields
directly, matching `time.Format`/`time.Parse` for such layouts (which yield
UTC).  `nsec` is the sub-second part, which the `time.DateTime` layout
neither renders nor parses. -/
structure GoTime where
  year : Nat
  month : Nat
  day : Nat
  hour : Nat
  minute : Nat
  second : Nat
  nsec : Nat
  deriving DecidableEq

/-- Zero `time.Time`: January 1, year 1, 00:00:00 UTC. -/
def zeroGoTime : GoTime := ⟨1, 1, 1, 0, 0, 0, 0⟩

/-- Model of Go's leap-year rule (`time.isLeap`). -/
def isLeapYear (y : Nat) : Bool :=
  y % 4 == 0 && (y % 100 != 0 || y % 400 == 0)

/-- Model of the per-month day count used by `time.Parse` validation. -/
def daysInMonth (y m : Nat) : Nat :=
  if m = 2 then (if isLeapYear y then 29 else 28)
  else if m = 4 ∨ m = 6 ∨ m = 9 ∨ m = 11 then 30
  else 31

/-- Well-formed calendar value within the four-digit-year range that the
fixed-width `time.DateTime` layout renders faithfully. -/
def validGoDate (t : GoTime) : Bool :=
  decide (1 ≤ t.year) && decide (t.year ≤ 9999) &&
  decide (1 ≤ t.month) && decide (t.month ≤ 12) &&
  decide (1 ≤ t.day) && decide (t.day ≤ daysInMonth t.year t.month) &&
  decide (t.hour ≤ 23) && decide (t.minute ≤ 59) && decide (t.second ≤ 59) &&
  decide (t.nsec < 1000000000)

/-- Model of `t.Format(time.DateTime)`, layout `2006-01-02 15:04:05`:
zero-padded fixed-width fields, sub-second part dropped. -/
def renderDateTimeChars (t : GoTime) : List Char :=
  padDigits 4 t.year ++ '-' :: (padDigits 2 t.month ++ '-' :: (padDigits 2 t.day ++
    ' ' :: (padDigits 2 t.hour ++ ':' :: (padDigits 2 t.minute ++ ':' :: padDigits 2 t.second))))

/-- Read a fixed two-digit decimal field. -/
def readD2 : List Char → Option (Nat × List Char)
  | a :: b :: rest =>
    match digitVal a, digitVal b with
    | some x, some y => some (10 * x + y, rest)
    | _, _ => none
  | _ => none

/-- Read a fixed four-digit decimal field. -/
def readD4 : List Char → Option (Nat × List Char)
  | a :: b :: c :: d :: rest =>
    match digitVal a, digitVal b, digitVal c, digitVal d with
    | some w, some x, some y, some z => some (1000 * w + 100 * x + 10 * y + z, rest)
    | _, _, _, _ => none
  | _ => none

/-- Expect one literal character. -/
def expectChar (c : Char) : List Char → Option (List Char)
  | x :: rest => if x = c then some rest else none
  | [] => none

/-- Calendar-field validation applied by `time.Parse` (month, day-in-month,
hour, minute, second ranges). -/
def validParsedFields (y mo d h mi s : Nat) : Bool :=
  decide (1 ≤ mo) && decide (mo ≤ 12) && decide (1 ≤ d) &&
  decide (d ≤ daysInMonth y mo) && decide (h ≤ 23) && decide (mi ≤ 59) &&
  decide (s ≤ 59)

/-- Model of `time.Parse(time.DateTime, s)` (layout `2006-01-02 15:04:05`). -/
def parseDateTimeChars (l : List Char) : Option GoTime :=
  match readD4 l with
  | none => none
  | some (y, l) =>
    match expectChar '-' l with
    | none => none
    | some l =>
      match readD2 l with
      | none => none
      | some (mo, l) =>
        match expectChar '-' l with
        | none => none
        | some l =>
          match readD2 l with
          | none => none
          | some (d, l) =>
            match expectChar ' ' l with
            | none => none
            | some l =>
              match readD2 l with
              | none => none
              | some (h, l) =>
                match expectChar ':' l with
                | none => none
                | some l =>
                  match readD2 l with
                  | none => none
                  | some (mi, l) =>
                    match expectChar ':' l with
                    | none => none
                    | some l =>
                      match readD2 l with
                      | none => none
                      | some (s, l) =>
                        if l = [] ∧ validParsedFields y mo d h mi s = true then
                          some ⟨y, mo, d, h, mi, s, 0⟩
                        else none

/-- Model of `time.Parse(time.DateOnly, s)` (layout `2006-01-02`). -/
def parseDateOnlyChars (l : List Char) : Option GoTime :=
  match readD4 l with
  | none => none
  | some (y, l) =>
    match expectChar '-' l with
    | none => none
    | some l =>
      match readD2 l with
      | none => none
      | some (mo, l) =>
        match expectChar '-' l with
        | none => none
        | some l =>
          match readD2 l with
          | none => none
          | some (d, l) =>
            if l = [] ∧ validParsedFields y mo d 0 0 0 = true then
              some ⟨y, mo, d, 0, 0, 0, 0⟩
            else none

/-- Model of `time.Parse(time.RFC3339, s)` restricted to the `Z` zone
designator (offset zones are outside this location-free model; no input in
this development reaches this parser, since the `time.DateTime` layout is
tried first by the converters). -/
def parseRFC3339Chars (l : List Char) : Option GoTime :=
  match l.span (fun c => c != 'T') with
  | (datePart, 'T' :: rest) =>
    match parseDateOnlyChars datePart, rest.span (fun c => c != 'Z') with
    | some d, (timePart, ['Z']) =>
      match readD2 timePart with
      | none => none
      | some (h, tl) =>
        match expectChar ':' tl with
        | none => none
        | some tl =>
          match readD2 tl with
          | none => none
          | some (mi, tl) =>
            match expectChar ':' tl with
            | none => none
            | some tl =>
              match readD2 tl with
              | none => none
              | some (s, tl) =>
                if tl = [] ∧ validParsedFields d.year d.month d.day h mi s = true then
                  some ⟨d.year, d.month, d.day, h, mi, s, 0⟩
                else none
    | _, _ => none
  | _ => none

/-- Model of `time.Parse(time.RFC3339Nano, s)`: as RFC3339, optionally with
a fractional-second run (whose digits populate `nsec`; trailing-zero
truncation of Go is not modelled — no input in this development reaches
this parser). -/
def parseRFC3339NanoChars (l : List Char) : Option GoTime :=
  match l.span (fun c => c != '.') with
  | (whole, []) => parseRFC3339Chars whole
  | (whole, '.' :: rest) =>
    match rest.span (fun c => (digitVal c).isSome), whole with
    | (fracDigits, zone), w =>
      match parseFrac fracDigits, parseRFC3339Chars (w ++ zone) with
      | some (f, len), some t =>
        if 0 < len ∧ len ≤ 9 then
          some ⟨t.year, t.month, t.day, t.hour, t.minute, t.second, f * 10 ^ (9 - len)⟩
        else none
      | _, _ => none
  | _ => none

/-- Model of `time.Parse` for the csvdoc custom layouts
`01/02/2006 15:04:05 PM` / `AM` (fixed two-digit month and day).  In these
layouts Go reads the hour from the 24-hour `15` verb and then requires the
literal meridiem text, which it cannot apply to an already-24-hour value;
the model reads the fields and requires the literal suffix.  No input in
this development reaches this parser. -/
def parseUSFixedChars (merid : Char) (l : List Char) : Option GoTime :=
  match readD2 l with
  | none => none
  | some (mo, l) =>
    match expectChar '/' l with
    | none => none
    | some l =>
      match readD2 l with
      | none => none
      | some (d, l) =>
        match expectChar '/' l with
        | none => none
        | some l =>
          match readD4 l with
          | none => none
          | some (y, l) =>
            match expectChar ' ' l with
            | none => none
            | some l =>
              match readD2 l with
              | none => none
              | some (h, l) =>
                match expectChar ':' l with
                | none => none
                | some l =>
                  match readD2 l with
                  | none => none
                  | some (mi, l) =>
                    match expectChar ':' l with
                    | none => none
                    | some l =>
                      match readD2 l with
                      | none => none
                      | some (s, l) =>
                        if l = [' ', merid, 'M'] ∧ validParsedFields y mo d h mi s = true then
                          some ⟨y, mo, d, h, mi, s, 0⟩
                        else none

/-- Read a one-or-two-digit decimal field (Go layout verbs `1` and `2`). -/
def readD1or2 : List Char → Option (Nat × List Char)
  | a :: b :: rest =>
    match digitVal a, digitVal b with
    | some x, some y => some (10 * x + y, rest)
    | some x, none => some (x, b :: rest)
    | _, _ => none
  | [a] =>
    match digitVal a with
    | some x => some (x, [])
    | none => none
  | [] => none

/-- Model of `time.Parse` for the csvdoc custom layouts
`1/2/2006 15:04:05 PM` / `AM` (variable-width month and day).  No input in
this development reaches this parser. -/
def parseUSVarChars (merid : Char) (l : List Char) : Option GoTime :=
  match readD1or2 l with
  | none => none
  | some (mo, l) =>
    match expectChar '/' l with
    | none => none
    | some l =>
      match readD1or2 l with
      | none => none
      | some (d, l) =>
        match expectChar '/' l with
        | none => none
        | some l =>
          match readD4 l with
          | none => none
          | some (y, l) =>
            match expectChar ' ' l with
            | none => none
            | some l =>
              match readD2 l with
              | none => none
              | some (h, l) =>
                match expectChar ':' l with
                | none => none
                | some l =>
                  match readD2 l with
                  | none => none
                  | some (mi, l) =>
                    match expectChar ':' l with
                    | none => none
                    | some l =>
                      match readD2 l with
                      | none => none
                      | some (s, l) =>
                        if l = [' ', merid, 'M'] ∧ validParsedFields y mo d h mi s = true then
                          some ⟨y, mo, d, h, mi, s, 0⟩
                        else none

/-- Try a list of layout parsers in order; first success wins, mirroring the
`for _, format := range formats` loop of the time converters. -/
def tryTimeFormats : List (List Char → Option GoTime) → List Char → Option GoTime
  | [], _ => none
  | p :: ps, l =>
    match p l with
    | some t => some t
    | none => tryTimeFormats ps l

/-- Layout list of the converters in `buildDefaultConverts` /
`buildReadDefaultConverters`: `time.DateTime`, `time.DateOnly`,
`time.RFC3339`, `time.RFC3339Nano`, then the two custom US layouts with the
given meridiem literal (`A` in the older converter set, `P` in the newer). -/
def csvdocTimeFormats (merid : Char) : List (List Char → Option GoTime) :=
  [parseDateTimeChars, parseDateOnlyChars, parseRFC3339Chars,
   parseRFC3339NanoChars, parseUSFixedChars merid, parseUSVarChars merid]

theorem readD2_pad2 (n : Nat) (rest : List Char) (h : n < 100) :
    readD2 (padDigits 2 n ++ rest) = some (n, rest) := by
  have hshape : padDigits 2 n = [digitChar (n / 10 % 10), digitChar (n % 10)] := by
    simp [padDigits]
  rw [hshape]
  show (match digitVal (digitChar (n / 10 % 10)), digitVal (digitChar (n % 10)) with
        | some x, some y => some (10 * x + y, rest)
        | _, _ => none) = some (n, rest)
  rw [digitVal_digitChar _ (Nat.mod_lt _ (by norm_num)),
    digitVal_digitChar _ (Nat.mod_lt _ (by norm_num))]
  show some (10 * (n / 10 % 10) + n % 10, rest) = some (n, rest)
  have hval : 10 * (n / 10 % 10) + n % 10 = n := by omega
  rw [hval]

theorem readD4_pad4 (n : Nat) (rest : List Char) (h : n < 10000) :
    readD4 (padDigits 4 n ++ rest) = some (n, rest) := by
  have hshape : padDigits 4 n = [digitChar (n / 1000 % 10), digitChar (n / 100 % 10),
      digitChar (n / 10 % 10), digitChar (n % 10)] := by
    simp [padDigits, Nat.div_div_eq_div_mul]
  rw [hshape]
  show (match digitVal (digitChar (n / 1000 % 10)), digitVal (digitChar (n / 100 % 10)),
          digitVal (digitChar (n / 10 % 10)), digitVal (digitChar (n % 10)) with
        | some w, some x, some y, some z => some (1000 * w + 100 * x + 10 * y + z, rest)
        | _, _, _, _ => none) = some (n, rest)
  rw [digitVal_digitChar _ (Nat.mod_lt _ (by norm_num)),
    digitVal_digitChar _ (Nat.mod_lt _ (by norm_num)),
    digitVal_digitChar _ (Nat.mod_lt _ (by norm_num)),
    digitVal_digitChar _ (Nat.mod_lt _ (by norm_num))]
  show some (1000 * (n / 1000 % 10) + 100 * (n / 100 % 10) + 10 * (n / 10 % 10) + n % 10, rest)
      = some (n, rest)
  have hval : 1000 * (n / 1000 % 10) + 100 * (n / 100 % 10) + 10 * (n / 10 % 10) + n % 10 = n := by
    omega
  rw [hval]

theorem expectChar_cons (c : Char) (rest : List Char) :
    expectChar c (c :: rest) = some rest := by
  show (if c = c then some rest else none) = some rest
  rw [if_pos rfl]

theorem daysInMonth_le_31 (y m : Nat) : daysInMonth y m ≤ 31 := by
  unfold daysInMonth
  split
  · split <;> omega
  · split <;> omega

theorem validParsedFields_of_validGoDate (y mo d h24 mi s : Nat)
    (hmo1 : 1 ≤ mo) (hmo2 : mo ≤ 12) (hd1 : 1 ≤ d) (hd2 : d ≤ daysInMonth y mo)
    (hh : h24 ≤ 23) (hmi : mi ≤ 59) (hs : s ≤ 59) :
    validParsedFields y mo d h24 mi s = true := by
  unfold validParsedFields
  simp only [Bool.and_eq_true, decide_eq_true_eq]
  exact ⟨⟨⟨⟨⟨⟨hmo1, hmo2⟩, hd1⟩, hd2⟩, hh⟩, hmi⟩, hs⟩

theorem parseDateTimeChars_renderDateTimeChars (t : GoTime)
    (h : validGoDate t = true) :
    parseDateTimeChars (renderDateTimeChars t)
      = some ⟨t.year, t.month, t.day, t.hour, t.minute, t.second, 0⟩ := by
  obtain ⟨y, mo, d, h24, mi, s, ns⟩ := t
  simp only [validGoDate, Bool.and_eq_true, decide_eq_true_eq] at h
  obtain ⟨⟨⟨⟨⟨⟨⟨⟨⟨hy1, hy2⟩, hmo1⟩, hmo2⟩, hd1⟩, hd2⟩, hh⟩, hmi⟩, hs⟩, hns⟩ := h
  have hdle : d ≤ 31 := le_trans hd2 (daysInMonth_le_31 y mo)
  show parseDateTimeChars (padDigits 4 y ++ '-' :: (padDigits 2 mo ++ '-' ::
      (padDigits 2 d ++ ' ' :: (padDigits 2 h24 ++ ':' :: (padDigits 2 mi ++
      ':' :: padDigits 2 s))))) = some ⟨y, mo, d, h24, mi, s, 0⟩
  have e1 := readD4_pad4 y ('-' :: (padDigits 2 mo ++ '-' ::
      (padDigits 2 d ++ ' ' :: (padDigits 2 h24 ++ ':' :: (padDigits 2 mi ++
      ':' :: padDigits 2 s))))) (by omega)
  have e2 := readD2_pad2 mo ('-' :: (padDigits 2 d ++ ' ' :: (padDigits 2 h24 ++
      ':' :: (padDigits 2 mi ++ ':' :: padDigits 2 s)))) (by omega)
  have e3 := readD2_pad2 d (' ' :: (padDigits 2 h24 ++ ':' :: (padDigits 2 mi ++
      ':' :: padDigits 2 s))) (by omega)
  have e4 := readD2_pad2 h24 (':' :: (padDigits 2 mi ++ ':' :: padDigits 2 s)) (by omega)
  have e5 := readD2_pad2 mi (':' :: padDigits 2 s) (by omega)
  have e6 : readD2 (padDigits 2 s) = some (s, []) := by
    have h6 := readD2_pad2 s [] (by omega)
    rwa [List.append_nil] at h6
  have hv := validParsedFields_of_validGoDate y mo d h24 mi s hmo1 hmo2 hd1 hd2 hh hmi hs
  simp only [parseDateTimeChars, e1, e2, e3, e4, e5, e6, expectChar_cons, hv,
    and_true]
  simp


/-- Go types that carry default converters in the csvdoc registries (plus
`int8`, a Go type for which neither registry has an entry). -/
inductive GoType
  | i64 | i32 | i16 | iNative | i8
  | u64 | u32 | u16 | uNative
  | f64 | f32
  | str | bool | time
  | nullStr | nullI64 | nullI32 | nullI16 | nullF64 | nullBool | nullTime
  deriving DecidableEq

/-- Runtime value of a record field (the payload a `reflect.Value` of the
corresponding kind would hold). -/
inductive GoValue
  | vInt (v : Int)
  | vUint (v : Nat)
  | vFloat (x : GoFloat)
  | vStr (s : String)
  | vBool (b : Bool)
  | vTime (t : GoTime)
  | vNullInt (v : Int) (valid : Bool)
  | vNullFloat (x : GoFloat) (valid : Bool)
  | vNullStr (s : String) (valid : Bool)
  | vNullBool (b : Bool) (valid : Bool)
  | vNullTime (t : GoTime) (valid : Bool)
  deriving DecidableEq

/-- Go zero value of each modelled type (`new(T)` starts every field here). -/
def zeroValue : GoType → GoValue
  | .i64 | .i32 | .i16 | .iNative | .i8 => .vInt 0
  | .u64 | .u32 | .u16 | .uNative => .vUint 0
  | .f64 | .f32 => .vFloat ⟨0, 0⟩
  | .str => .vStr ""
  | .bool => .vBool false
  | .time => .vTime zeroGoTime
  | .nullStr => .vNullStr "" false
  | .nullI64 | .nullI32 | .nullI16 => .vNullInt 0 false
  | .nullF64 => .vNullFloat ⟨0, 0⟩ false
  | .nullBool => .vNullBool false false
  | .nullTime => .vNullTime zeroGoTime false

/-- Bit width of the signed integer kinds (Go `int` is 64-bit here). -/
def intBits : GoType → Nat
  | .i32 => 32
  | .i16 => 16
  | .i8 => 8
  | _ => 64

/-- Bit width of the unsigned integer kinds. -/
def uintBits : GoType → Nat
  | .u32 => 32
  | .u16 => 16
  | _ => 64

/-- Model of `reflect.Value.OverflowInt` for a field of the given kind. -/
def overflowInt (ty : GoType) (v : Int) : Bool :=
  decide (v < -(2 ^ (intBits ty - 1))) || decide ((2 : Int) ^ (intBits ty - 1) ≤ v)

/-- Model of `reflect.Value.OverflowUint` for a field of the given kind. -/
def overflowUint (ty : GoType) (v : Nat) : Bool :=
  decide (2 ^ uintBits ty ≤ v)

/-- Exact value of `math.MaxFloat32` (an integer). -/
def maxFloat32Num : Int := 2 ^ 128 - 2 ^ 104

/-- Model of `reflect.Value.OverflowFloat`: always false on a `float64`
field (the parsed value already is a `float64`); on a `float32` field, true
when the magnitude exceeds `math.MaxFloat32`. -/
def overflowFloat (ty : GoType) (x : GoFloat) : Bool :=
  match ty with
  | .f32 => decide (maxFloat32Num * 10 ^ x.k < |x.m|)
  | _ => false

/-- Model of `strconv.ParseInt(s, 10, bits)`. -/
def goParseInt (bits : Nat) (s : String) : Except GoError Int :=
  match parseIntChars s.data with
  | none => .error .numSyntax
  | some v =>
    if v < -(2 ^ (bits - 1)) ∨ (2 : Int) ^ (bits - 1) - 1 < v then .error .numRange
    else .ok v

/-- Model of `strconv.ParseUint(s, 10, 64)` (no sign permitted). -/
def goParseUint64 (s : String) : Except GoError Nat :=
  match parseNatChars s.data with
  | none => .error .numSyntax
  | some v => if 2 ^ 64 ≤ v then .error .numRange else .ok v

/-- Model of `strconv.ParseFloat(s, 64)` on plain decimal notation. -/
def goParseFloat (s : String) : Except GoError GoFloat :=
  match parseFloatChars s.data with
  | none => .error .numSyntax
  | some x => .ok x

/-- Model of `strconv.FormatInt(v, 10)`. -/
def goFormatInt (v : Int) : String := String.mk (formatIntChars v)

/-- Model of `strconv.FormatUint(v, 10)`. -/
def goFormatUint (v : Nat) : String := String.mk (formatNatChars v)

/-- Model of `strconv.FormatFloat(x, 'f', -1, 64)`. -/
def goFormatFloat (x : GoFloat) : String := String.mk (formatFloatChars x)

/-- Model of `strconv.FormatBool`. -/
def goFormatBool (b : Bool) : String := if b then "true" else "false"

/-- Model of `strings.ToLower` (ASCII suffices for the compared literals). -/
def goToLower (s : String) : String := String.mk (s.data.map Char.toLower)

/-- Read-side converter: the model of the Go closure type
`Conversion func(string, *reflect.Value) error`.  Arguments: cell text,
static type of the destination field, current field value.  `none` models a
Go runtime panic inside the converter; `some` carries the returned error or
the updated field. -/
def RConv : Type := String → GoType → GoValue → Option (Except GoError GoValue)

/-- Write-side converter: the model of
`ToStringConversion func(*reflect.Value) (string, error)`.  `none` models a
runtime panic inside the converter. -/
def WConv : Type := GoValue → Option (Except GoError String)

/-- Old `intConversion` of `buildDefaultConverts` (reader.go): parses into
int64, checks the destination width, and silently accepts the empty string
(the enclosing `if s != ""` falls through to `return nil`). -/
def intConversionOld : RConv := fun s ty v =>
  if s ≠ "" then
    match goParseInt 64 s with
    | .error e => some (.error e)
    | .ok val =>
      if overflowInt ty val then some (.error (.goMsg "overflow convert"))
      else some (.ok (.vInt val))
  else some (.ok v)

/-- New `intConversion` of `buildReadDefaultConverters` (reader.go): as the
old one, but the empty string is an error. -/
def intConversionNew : RConv := fun s ty v =>
  if s ≠ "" then
    match goParseInt 64 s with
    | .error e => some (.error e)
    | .ok val =>
      if overflowInt ty val then some (.error (.goMsg "overflow convert"))
      else some (.ok (.vInt val))
  else
    let _ := v
    some (.error (.goMsg "cannot convert empty string to int*"))

/-- Old `uintConversion` (empty string falls through to `return nil`). -/
def uintConversionOld : RConv := fun s ty v =>
  if s ≠ "" then
    match goParseUint64 s with
    | .error e => some (.error e)
    | .ok val =>
      if overflowUint ty val then some (.error .typeOverflow)
      else some (.ok (.vUint val))
  else some (.ok v)

/-- New `uintConversion` (empty string is an error). -/
def uintConversionNew : RConv := fun s ty v =>
  if s ≠ "" then
    match goParseUint64 s with
    | .error e => some (.error e)
    | .ok val =>
      if overflowUint ty val then some (.error .typeOverflow)
      else some (.ok (.vUint val))
  else
    let _ := v
    some (.error (.goMsg "cannot convert empty string to uint*"))

/-- Old `floatConversion` (empty string falls through to `return nil`). -/
def floatConversionOld : RConv := fun s ty v =>
  if s ≠ "" then
    match goParseFloat s with
    | .error e => some (.error e)
    | .ok x =>
      if overflowFloat ty x then some (.error .typeOverflow)
      else some (.ok (.vFloat x))
  else some (.ok v)

/-- New `floatConversion` (empty string is an error). -/
def floatConversionNew : RConv := fun s ty v =>
  if s ≠ "" then
    match goParseFloat s with
    | .error e => some (.error e)
    | .ok x =>
      if overflowFloat ty x then some (.error .typeOverflow)
      else some (.ok (.vFloat x))
  else
    let _ := v
    some (.error (.goMsg "cannot convert empty string to float*"))

/-- `stringConversion` (both registries): `SetString`, always succeeds. -/
def stringConversion : RConv := fun s _ty _v => some (.ok (.vStr s))

/-- New `boolConversion` (`buildReadDefaultConverters` only): recognizes
`true/1/on/yes/y` case-insensitively, everything else nonempty is false,
empty is an error. -/
def boolConversionNew : RConv := fun s _ty _v =>
  if s ≠ "" then
    let cmp := goToLower s
    if cmp = "true" ∨ cmp = "1" ∨ cmp = "on" ∨ cmp = "yes" ∨ cmp = "y" then
      some (.ok (.vBool true))
    else some (.ok (.vBool false))
  else some (.error (.goMsg "cannot convert empty string to bool"))

/-- `sqlNullInt64Conversion` (both registries): nonempty parses at 64 bits
and sets `Valid: true`; empty falls through to `return nil`. -/
def sqlNullInt64Conversion : RConv := fun s _ty v =>
  if s ≠ "" then
    match goParseInt 64 s with
    | .error e => some (.error e)
    | .ok val => some (.ok (.vNullInt val true))
  else some (.ok v)

/-- `sqlNullInt32Conversion` (both registries): parses at 32 bits. -/
def sqlNullInt32Conversion : RConv := fun s _ty v =>
  if s ≠ "" then
    match goParseInt 32 s with
    | .error e => some (.error e)
    | .ok val => some (.ok (.vNullInt val true))
  else some (.ok v)

/-- `sqlNullInt16Conversion` (both registries): parses at 16 bits. -/
def sqlNullInt16Conversion : RConv := fun s _ty v =>
  if s ≠ "" then
    match goParseInt 16 s with
    | .error e => some (.error e)
    | .ok val => some (.ok (.vNullInt val true))
  else some (.ok v)

/-- Old `sqlNullFloat64Conversion` (`buildDefaultConverts`): after a
successful parse it calls `field.OverflowFloat(val)` on the
`sql.NullFloat64` *struct* field, and `reflect.Value.OverflowFloat` panics
when the kind is not a float — modelled by `none`. -/
def sqlNullFloat64ConversionOld : RConv := fun s _ty v =>
  if s ≠ "" then
    match goParseFloat s with
    | .error e => some (.error e)
    | .ok _x => none
  else some (.ok v)

/-- New `sqlNullFloat64Conversion` (`buildReadDefaultConverters`): no
overflow check; nonempty parses and sets `Valid: true`. -/
def sqlNullFloat64ConversionNew : RConv := fun s _ty v =>
  if s ≠ "" then
    match goParseFloat s with
    | .error e => some (.error e)
    | .ok x => some (.ok (.vNullFloat x true))
  else some (.ok v)

/-- `sqlNullStringConversion` (both registries): nonempty sets
`Valid: true`; empty falls through to `return nil`. -/
def sqlNullStringConversion : RConv := fun s _ty v =>
  if s ≠ "" then some (.ok (.vNullStr s true))
  else some (.ok v)

/-- New `sqlNullBoolConversion` (`buildReadDefaultConverters` only). -/
def sqlNullBoolConversion : RConv := fun s _ty v =>
  if s ≠ "" then
    let cmp := goToLower s
    if cmp = "true" ∨ cmp = "1" ∨ cmp = "on" ∨ cmp = "yes" ∨ cmp = "y" then
      some (.ok (.vNullBool true true))
    else some (.ok (.vNullBool false true))
  else some (.ok v)

/-- Old `timeConversion` (`buildDefaultConverts`): layout list with the
`AM`-literal custom formats; empty input and a nonempty input matching no
layout both reach the trailing `return errors.New(...)`. -/
def timeConversionOld : RConv := fun s _ty _v =>
  if s ≠ "" then
    match tryTimeFormats (csvdocTimeFormats 'A') s.data with
    | some t => some (.ok (.vTime t))
    | none => some (.error (.goMsg "cannot convert string to time"))
  else some (.error (.goMsg "cannot convert string to time"))

/-- New `timeConversion` (`buildReadDefaultConverters`): `PM`-literal custom
formats and a dedicated empty-input error. -/
def timeConversionNew : RConv := fun s _ty _v =>
  if s ≠ "" then
    match tryTimeFormats (csvdocTimeFormats 'P') s.data with
    | some t => some (.ok (.vTime t))
    | none => some (.error (.goMsg "cannot convert string to time"))
  else some (.error (.goMsg "cannot convert empty string to time"))

/-- Old `sqlNullTimeConversion`: nonempty tries the `AM` layout list (no
match is an error); empty falls through to `return nil`. -/
def sqlNullTimeConversionOld : RConv := fun s _ty v =>
  if s ≠ "" then
    match tryTimeFormats (csvdocTimeFormats 'A') s.data with
    | some t => some (.ok (.vNullTime t true))
    | none => some (.error (.goMsg "cannot convert string to time"))
  else some (.ok v)

/-- New `sqlNullTimeConversion`: as the old one with the `PM` layouts. -/
def sqlNullTimeConversionNew : RConv := fun s _ty v =>
  if s ≠ "" then
    match tryTimeFormats (csvdocTimeFormats 'P') s.data with
    | some t => some (.ok (.vNullTime t true))
    | none => some (.error (.goMsg "cannot convert string to time"))
  else some (.ok v)

/-- Model of `buildDefaultConverts` (reader.go, the map `NewFileReader`
installs): type-keyed read converters in registration order.  Note: no
entry for `bool` or `sql.NullBool`. -/
def buildDefaultConverts : List (GoType × RConv) :=
  [(.i64, intConversionOld), (.i32, intConversionOld), (.i16, intConversionOld),
   (.iNative, intConversionOld),
   (.u64, uintConversionOld), (.u32, uintConversionOld), (.u16, uintConversionOld),
   (.uNative, uintConversionOld),
   (.str, stringConversion),
   (.nullStr, sqlNullStringConversion),
   (.nullI64, sqlNullInt64Conversion), (.nullI32, sqlNullInt32Conversion),
   (.nullI16, sqlNullInt16Conversion),
   (.nullTime, sqlNullTimeConversionOld),
   (.time, timeConversionOld),
   (.f64, floatConversionOld), (.f32, floatConversionOld),
   (.nullF64, sqlNullFloat64ConversionOld)]

/-- Model of `buildReadDefaultConverters` (reader.go, newer registry):
includes `bool` and `sql.NullBool`, and rejects empty input for the
non-nullable numeric, bool and time kinds. -/
def buildReadDefaultConverters : List (GoType × RConv) :=
  [(.i64, intConversionNew), (.i32, intConversionNew), (.i16, intConversionNew),
   (.iNative, intConversionNew),
   (.u64, uintConversionNew), (.u32, uintConversionNew), (.u16, uintConversionNew),
   (.uNative, uintConversionNew),
   (.str, stringConversion),
   (.nullStr, sqlNullStringConversion),
   (.nullI64, sqlNullInt64Conversion), (.nullI32, sqlNullInt32Conversion),
   (.nullI16, sqlNullInt16Conversion),
   (.nullTime, sqlNullTimeConversionNew),
   (.time, timeConversionNew),
   (.f64, floatConversionNew), (.f32, floatConversionNew),
   (.nullF64, sqlNullFloat64ConversionNew),
   (.nullBool, sqlNullBoolConversion),
   (.bool, boolConversionNew)]

/-- Write `intConversion`: `strconv.FormatInt(v.Int(), 10)`; `v.Int()`
panics on a non-integer kind (unreachable through the type-keyed map). -/
def intWConversion : WConv := fun v =>
  match v with
  | .vInt n => some (.ok (goFormatInt n))
  | _ => none

/-- Write `uintConversion`. -/
def uintWConversion : WConv := fun v =>
  match v with
  | .vUint n => some (.ok (goFormatUint n))
  | _ => none

/-- Write `floatConversion`: `strconv.FormatFloat(v.Float(), 'f', -1, 64)`. -/
def floatWConversion : WConv := fun v =>
  match v with
  | .vFloat x => some (.ok (goFormatFloat x))
  | _ => none

/-- Write `stringConversion`: `v.String()` (which never panics; on a
non-string kind Go returns a placeholder string). -/
def stringWConversion : WConv := fun v =>
  match v with
  | .vStr s => some (.ok s)
  | _ => some (.ok "<invalid Value>")

/-- Write `boolConversion`: `strconv.FormatBool(v.Bool())`. -/
def boolWConversion : WConv := fun v =>
  match v with
  | .vBool b => some (.ok (goFormatBool b))
  | _ => none

/-- Write `sqlNullStringConversion`: type-asserts, then the payload when
valid, empty string when not. -/
def sqlNullStringWConversion : WConv := fun v =>
  match v with
  | .vNullStr s valid => some (.ok (if valid then s else ""))
  | _ => some (.error (.goMsg "cannot convert to sql.NullString"))

/-- Write `sqlNullInt64Conversion`. -/
def sqlNullInt64WConversion : WConv := fun v =>
  match v with
  | .vNullInt n valid => some (.ok (if valid then goFormatInt n else ""))
  | _ => some (.error (.goMsg "cannot convert to sql.NullInt64"))

/-- Write `sqlNullInt32Conversion`. -/
def sqlNullInt32WConversion : WConv := fun v =>
  match v with
  | .vNullInt n valid => some (.ok (if valid then goFormatInt n else ""))
  | _ => some (.error (.goMsg "cannot convert to sql.NullInt32"))

/-- Write `sqlNullInt16Conversion`. -/
def sqlNullInt16WConversion : WConv := fun v =>
  match v with
  | .vNullInt n valid => some (.ok (if valid then goFormatInt n else ""))
  | _ => some (.error (.goMsg "cannot convert to sql.NullInt16"))

/-- Write `sqlNullTimeConversion`: `ns.Time.Format(time.DateTime)` when
valid, empty string when not. -/
def sqlNullTimeWConversion : WConv := fun v =>
  match v with
  | .vNullTime t valid =>
    some (.ok (if valid then String.mk (renderDateTimeChars t) else ""))
  | _ => some (.error (.goMsg "cannot convert to sql.NullTime"))

/-- Write `timeConversion`: `tm.Format(time.DateTime)`. -/
def timeWConversion : WConv := fun v =>
  match v with
  | .vTime t => some (.ok (String.mk (renderDateTimeChars t)))
  | _ => some (.error (.goMsg "cannot convert to time.Time\x7b\x7d"))

/-- Write `sqlNullFloat64Conversion`. -/
def sqlNullFloat64WConversion : WConv := fun v =>
  match v with
  | .vNullFloat x valid => some (.ok (if valid then goFormatFloat x else ""))
  | _ => some (.error (.goMsg "cannot convert to sql.NullFloat64"))

/-- Write `sqlNullBoolConversion`. -/
def sqlNullBoolWConversion : WConv := fun v =>
  match v with
  | .vNullBool b valid => some (.ok (if valid then goFormatBool b else ""))
  | _ => some (.error (.goMsg "cannot convert to sql.NullBool"))

/-- Model of `buildWriteDefaultConverters` (write registry, in registration
order; covers `bool` and every `sql.Null*` wrapper, but not `int8`). -/
def buildWriteDefaultConverters : List (GoType × WConv) :=
  [(.i64, intWConversion), (.i32, intWConversion), (.i16, intWConversion),
   (.iNative, intWConversion),
   (.u64, uintWConversion), (.u32, uintWConversion), (.u16, uintWConversion),
   (.uNative, uintWConversion),
   (.str, stringWConversion),
   (.bool, boolWConversion),
   (.nullStr, sqlNullStringWConversion),
   (.nullI64, sqlNullInt64WConversion), (.nullI32, sqlNullInt32WConversion),
   (.nullI16, sqlNullInt16WConversion),
   (.nullTime, sqlNullTimeWConversion),
   (.time, timeWConversion),
   (.f64, floatWConversion), (.f32, floatWConversion),
   (.nullF64, sqlNullFloat64WConversion),
   (.nullBool, sqlNullBoolWConversion)]


/-- Per-cell converter dispatch of `FileReader.Read` (filereader.go): the
installed column-name override first, else the type-keyed default, else
`ErrConverterNotFoundForType` (the lookup is ok-checked on this path). -/
def readConvertCell (custom : List (String × RConv)) (defaults : List (GoType × RConv))
    (name : String) (ty : GoType) (cell : String) (cur : GoValue) :
    Option (Except GoError GoValue) :=
  match lookupA custom name with
  | some cv => cv cell ty cur
  | none =>
    match lookupA defaults ty with
    | some cv => cv cell ty cur
    | none => some (.error .converterNotFoundForType)

/-- Per-cell converter dispatch of `FileWriter.Write`: the override first,
else `doc.defaultConverters[tp](&f)` — the default lookup is *not*
ok-checked, so a type with no default yields the map's zero value (a nil
function) whose invocation is a runtime panic (`none`). -/
def writeConvertCell (custom : List (String × WConv)) (defaults : List (GoType × WConv))
    (name : String) (ty : GoType) (v : GoValue) : Option (Except GoError String) :=
  match lookupA custom name with
  | some cv => cv v
  | none =>
    match lookupA defaults ty with
    | some cv => cv v
    | none => none

/-- Model of `strings.Split(s, ",")` over characters. -/
def splitCommaChars : List Char → List (List Char)
  | [] => [[]]
  | c :: rest =>
    if c = ',' then [] :: splitCommaChars rest
    else
      match splitCommaChars rest with
      | [] => [[c]]
      | g :: gs => (c :: g) :: gs

/-- Model of `strings.Split(s, ",")`. -/
def splitOnComma (s : String) : List String :=
  (splitCommaChars s.data).map String.mk

/-- Loop of `buildReflectTagIndexCache`: `fields` is the record type's field
list in declaration order, each entry the `csv` tag when present; `i` the
field index, `acc` the map built so far.  The duplicate check precedes the
`""`/`"-"` exclusion check, exactly as in the source. -/
def buildTagIndexAux (forWrite : Bool) :
    List (Option String) → Nat → List (String × Nat) →
    Except GoError (List (String × Nat))
  | [], _, acc => .ok acc
  | f :: rest, i, acc =>
    match f with
    | none => buildTagIndexAux forWrite rest (i + 1) acc
    | some tag =>
      let parts0 := splitOnComma tag
      let parts := if forWrite ∧ 1 < parts0.length then parts0.drop 1 else parts0
      let name := parts.headD ""
      if (lookupA acc name).isSome then .error .structTagDuplicate
      else if name ≠ "" ∧ name ≠ "-" then
        buildTagIndexAux forWrite rest (i + 1) (acc ++ [(name, i)])
      else buildTagIndexAux forWrite rest (i + 1) acc

/-- Model of `buildReflectTagIndexCache[T](forWrite)` (csvdoc.go); the
parameterless read-side variant in reader.go is the `forWrite = false`
instance. -/
def buildReflectTagIndexCache (fields : List (Option String)) (forWrite : Bool) :
    Except GoError (List (String × Nat)) :=
  buildTagIndexAux forWrite fields 0 []

/-- Header-scanning loop of `buildHeaderNameIndexCache` (reader.go): a cell
already present in `nameIndex` is a duplicate error — note only cells that
matched a tag are ever inserted into `nameIndex`; a cell matching a tag is
recorded in both maps; any other cell is skipped. -/
def scanHeader (tags : List (String × Nat)) :
    List String → Nat → List (String × Nat) → List (Nat × String) →
    Except GoError (List (String × Nat) × List (Nat × String))
  | [], _, ni, iname => .ok (ni, iname)
  | col :: rest, i, ni, iname =>
    if (lookupA ni col).isSome then .error .duplicateHeaderInCSV
    else if (lookupA tags col).isSome then
      scanHeader tags rest (i + 1) (ni ++ [(col, i)]) (iname ++ [(i, col)])
    else scanHeader tags rest (i + 1) ni iname

/-- Model of `buildHeaderNameIndexCache` (= `buildReadHeaderNameIndexCache`,
identical code): scan the header, then verify every tag was matched.
`tagEnum` is the iteration order of the unordered `for k := range
tFieldsIndexes` loop; returning the constant error at the first missing key
is equivalent to the existence check. -/
def buildHeaderNameIndexCache (headerLine : List String) (tags : List (String × Nat))
    (tagEnum : List String) :
    Except GoError (List (String × Nat) × List (Nat × String)) :=
  match scanHeader tags headerLine 0 [] [] with
  | .error e => .error e
  | .ok (ni, iname) =>
    if tagEnum.any (fun k => (lookupA ni k).isNone) then .error .structTagNotInCSV
    else .ok (ni, iname)

/-- Loop of `buildWriteHeaderNameIndexCache` (write side): every requested
output column must be a resolved write name — an unknown column is an
immediate `ErrStructTagNotInCSV`. -/
def buildWriteHeaderNameIndexCacheAux (tags : List (String × Nat)) :
    List String → Nat → List (String × Nat) → List (Nat × String) →
    Except GoError (List (String × Nat) × List (Nat × String))
  | [], _, ni, iname => .ok (ni, iname)
  | col :: rest, i, ni, iname =>
    if (lookupA ni col).isSome then .error .duplicateHeaderInCSV
    else if (lookupA tags col).isSome then
      buildWriteHeaderNameIndexCacheAux tags rest (i + 1) (ni ++ [(col, i)]) (iname ++ [(i, col)])
    else .error .structTagNotInCSV

/-- Model of `buildWriteHeaderNameIndexCache`. -/
def buildWriteHeaderNameIndexCache (headerLine : List String)
    (tags : List (String × Nat)) :
    Except GoError (List (String × Nat) × List (Nat × String)) :=
  buildWriteHeaderNameIndexCacheAux tags headerLine 0 [] []

/-- Fold of the default-order construction in `NewFileWriter`:
`for i, v := range reflectIndexes { sort[v] = i }` over a slice of length
`len(reflectIndexes)`.  A write at `v ≥ len(sort)` is an index-out-of-range
panic, modelled by `none`. -/
def defaultSortAux : List (String × Nat) → List String → Option (List String)
  | [], acc => some acc
  | (name, v) :: rest, acc =>
    if v < acc.length then defaultSortAux rest (acc.set v name) else none

/-- Default output order of `NewFileWriter` when none is requested.  Taken
in association-list order: each bound name writes its own slot, so any Go
map iteration order produces the same slice when all writes are in
bounds. -/
def defaultSort (m : List (String × Nat)) : Option (List String) :=
  defaultSortAux m (List.replicate m.length "")

instance {e a : Type} [DecidableEq e] [DecidableEq a] : DecidableEq (Except e a) :=
  fun x y =>
    match x, y with
    | .error u, .error v =>
      if h : u = v then .isTrue (by rw [h]) else .isFalse (by intro hc; cases hc; exact h rfl)
    | .ok u, .ok v =>
      if h : u = v then .isTrue (by rw [h]) else .isFalse (by intro hc; cases hc; exact h rfl)
    | .error _, .ok _ => .isFalse (by intro hc; cases hc)
    | .ok _, .error _ => .isFalse (by intro hc; cases hc)

/-- The tables a successfully opened writer holds: output headers, the
write-name map, and the two header maps. -/
structure WriterTables where
  headers : List String
  reflectIndexes : List (String × Nat)
  headerIndex : List (String × Nat)
  indexHeader : List (Nat × String)
  deriving DecidableEq

/-- Outcome of the write-side open: whether the target file was
created/truncated, whether the handle was closed again, and the returned
tables or error. -/
structure WriterOpen where
  truncated : Bool
  closed : Bool
  result : Except GoError WriterTables
  deriving DecidableEq

/-- Model of `NewFileWriter` (filewriter.go, and the options variant in the
same order): `os.OpenFile(..., O_CREATE|O_TRUNC)` runs first, so the target
is truncated before any validation; a tag error or an over-long explicit
order returns without closing the handle; only a header-binding error
closes it.  `none` models the index-out-of-range panic of the default-order
construction. -/
def NewFileWriter (fields : List (Option String)) (sortArg : Option (List String)) :
    Option WriterOpen :=
  match buildReflectTagIndexCache fields true with
  | .error e => some ⟨true, false, .error e⟩
  | .ok reflectIndexes =>
    match sortArg with
    | some sort0 =>
      if reflectIndexes.length < sort0.length then
        some ⟨true, false, .error .toFewStructTags⟩
      else
        match buildWriteHeaderNameIndexCache sort0 reflectIndexes with
        | .error e => some ⟨true, true, .error e⟩
        | .ok (ni, iname) => some ⟨true, false, .ok ⟨sort0, reflectIndexes, ni, iname⟩⟩
    | none =>
      match defaultSort reflectIndexes with
      | none => none
      | some sort0 =>
        match buildWriteHeaderNameIndexCache sort0 reflectIndexes with
        | .error e => some ⟨true, true, .error e⟩
        | .ok (ni, iname) => some ⟨true, false, .ok ⟨sort0, reflectIndexes, ni, iname⟩⟩

/-- Row-building loop of `FileWriter.Write`: iterate the write-name map (in
association order, standing for Go's map order — each bound name writes a
distinct output slot), skip names outside the output header, convert and
place.  `none` models the runtime panics (field index out of range, nil
default converter, row index out of range). -/
def writeRecordAux (custom : List (String × WConv)) (defaults : List (GoType × WConv))
    (headerIndex : List (String × Nat)) (vals : List (GoType × GoValue)) :
    List (String × Nat) → List String → Option (Except GoError (List String))
  | [], row => some (.ok row)
  | (fieldName, fieldIndex) :: rest, row =>
    match lookupA headerIndex fieldName with
    | none => writeRecordAux custom defaults headerIndex vals rest row
    | some outIndex =>
      match vals.get? fieldIndex with
      | none => none
      | some (ty, v) =>
        match writeConvertCell custom defaults fieldName ty v with
        | none => none
        | some (.error e) => some (.error e)
        | some (.ok str) =>
          if outIndex < row.length then
            writeRecordAux custom defaults headerIndex vals rest (row.set outIndex str)
          else none

/-- Per-row body of `FileWriter.Write`: `row := make([]string, len(headers))`
then the conversion loop. -/
def writeRecord (custom : List (String × WConv)) (defaults : List (GoType × WConv))
    (reflectIndexes headerIndex : List (String × Nat)) (numCols : Nat)
    (vals : List (GoType × GoValue)) : Option (Except GoError (List String)) :=
  writeRecordAux custom defaults headerIndex vals reflectIndexes
    (List.replicate numCols "")

/-- Per-cell loop of `FileReader.Read`: for each position bound in
`indexHeader`, fetch the field index (`fr.reflectIndexes[hrName]`, an
unchecked map read whose zero value is 0), dispatch the converter and store
the result; unbound positions are skipped. -/
def readRecordAux (custom : List (String × RConv)) (defaults : List (GoType × RConv))
    (reflectIndexes : List (String × Nat)) (indexHeader : List (Nat × String))
    (schema : List GoType) :
    List String → Nat → List GoValue → Option (Except GoError (List GoValue))
  | [], _, rec => some (.ok rec)
  | cell :: rest, i, rec =>
    match lookupA indexHeader i with
    | none =>
      readRecordAux custom defaults reflectIndexes indexHeader schema rest (i + 1) rec
    | some hrName =>
      let tagFieldIndex := (lookupA reflectIndexes hrName).getD 0
      match schema.get? tagFieldIndex, rec.get? tagFieldIndex with
      | some ty, some cur =>
        match readConvertCell custom defaults hrName ty cell cur with
        | none => none
        | some (.error e) => some (.error e)
        | some (.ok v) =>
          readRecordAux custom defaults reflectIndexes indexHeader schema rest (i + 1)
            (rec.set tagFieldIndex v)
      | _, _ => none

/-- Per-row body of `FileReader.Read`: `t := new(T)` (every field at its
zero value), then the cell loop over the tokenized line. -/
def readRecord (custom : List (String × RConv)) (defaults : List (GoType × RConv))
    (reflectIndexes : List (String × Nat)) (indexHeader : List (Nat × String))
    (schema : List GoType) (line : List String) :
    Option (Except GoError (List GoValue)) :=
  readRecordAux custom defaults reflectIndexes indexHeader schema line 0
    (schema.map zeroValue)

/-- State of the buffered `csv.Writer` at `Close` time: `pendingErr` is the
write error that `cw.Error()` would report after `cw.Flush()`. -/
structure CsvWriterState where
  pendingErr : Option GoError
  deriving DecidableEq

/-- An open file handle and the outcome its `Close` will report. -/
structure FileHandle where
  closeErr : Option GoError
  deriving DecidableEq

/-- Model of `cw.Flush()`: writes the buffered data; it returns nothing, and
the outcome is observable only through `cw.Error()`. -/
def csvWriterFlush (cw : CsvWriterState) : CsvWriterState := cw

/-- Model of `cw.Error()`. -/
def csvWriterError (cw : CsvWriterState) : Option GoError := cw.pendingErr

/-- Model of `f.Close()`. -/
def fileClose (f : FileHandle) : Except GoError Unit :=
  match f.closeErr with
  | some e => .error e
  | none => .ok ()

/-- Model of `FileWriter.Close` (both variants):
`doc.cw.Flush(); return doc.f.Close()`.  The flush outcome (`cw.Error()`)
is never consulted.  Returns (result, flushCalled, closeCalled). -/
def FileWriterClose (cw : CsvWriterState) (f : FileHandle) :
    Except GoError Unit × Bool × Bool :=
  let _flushed := csvWriterFlush cw
  (fileClose f, true, true)

/-- Model of `FileReader.AddConvertor`: the name must be a bound header
column; on failure the override table is returned unchanged. -/
def FileReaderAddConvertor (headerIndex : List (String × Nat))
    (custom : List (String × RConv)) (header : String) (handler : RConv) :
    Except GoError Unit × List (String × RConv) :=
  if (lookupA headerIndex header).isNone then (.error .notFoundHeaderInCSV, custom)
  else (.ok (), insertA custom header handler)

/-- Model of `FileWriter.AddConverter` (both variants): lazily allocates the
override map and installs unconditionally — the header name is never
validated against the schema. -/
def FileWriterAddConverter (custom : Option (List (String × WConv)))
    (header : String) (handler : WConv) :
    Except GoError Unit × List (String × WConv) :=
  let c := custom.getD []
  (.ok (), insertA c header handler)

/-- End-to-end engine round trip: open a writer (default output order, no
overrides) on a record type whose fields carry the simple tags
`schema.map Prod.fst`, write one record, then resolve the read schema, bind
the reader on the header the writer emits, and materialize the produced row
with the default read converters (`buildDefaultConverts`, the map
`NewFileReader` installs).  The csv layer transports header and row
verbatim (quoting is the tokenizer's contract, outside the engine). -/
def roundTripRecord (schema : List (String × GoType)) (vals : List GoValue) :
    Option (Except GoError (List GoValue)) :=
  let fields := schema.map (fun p => some p.1)
  match NewFileWriter fields none with
  | none => none
  | some w =>
    match w.result with
    | .error e => some (.error e)
    | .ok tables =>
      match writeRecord [] buildWriteDefaultConverters tables.reflectIndexes
          tables.headerIndex tables.headers.length ((schema.map Prod.snd).zip vals) with
      | none => none
      | some (.error e) => some (.error e)
      | some (.ok row) =>
        match buildReflectTagIndexCache fields false with
        | .error e => some (.error e)
        | .ok readIndexes =>
          match buildHeaderNameIndexCache tables.headers readIndexes
              (readIndexes.map Prod.fst) with
          | .error e => some (.error e)
          | .ok (_nameIndex, indexName) =>
            readRecord [] buildDefaultConverts readIndexes indexName
              (schema.map Prod.snd) row


/-! ### Generic association-list lemmas -/

theorem lookupA_append {α β : Type} [DecidableEq α] (l₁ l₂ : List (α × β)) (a : α) :
    lookupA (l₁ ++ l₂) a
      = match lookupA l₁ a with
        | some v => some v
        | none => lookupA l₂ a := by
  induction l₁ with
  | nil => simp [lookupA]
  | cons p rest ih =>
    obtain ⟨k, v⟩ := p
    by_cases h : a = k
    · simp [lookupA, h]
    · simp [lookupA, h, ih]

theorem lookupA_singleton {α β : Type} [DecidableEq α] (k a : α) (v : β) :
    lookupA [(k, v)] a = if a = k then some v else none := rfl

/-! ### A trivial converter pair, used as concrete handler values -/

/-- A concrete write converter used as a witness handler value. -/
def constWConv : WConv := fun _ => some (.ok "")

/-- A concrete read converter used as a witness handler value. -/
def idRConv : RConv := fun _ _ v => some (.ok v)

/-- Extract the `Valid` flag of a null-capable wrapper value. -/
def nullValidFlag : GoValue → Option Bool
  | .vNullInt _ b => some b
  | .vNullFloat _ b => some b
  | .vNullStr _ b => some b
  | .vNullBool _ b => some b
  | .vNullTime _ b => some b
  | _ => none

/-! ### C7: FileWriter.Close -/

/-- C7 counterexample: with a write failure pending in the buffered csv
writer (observable via `cw.Error()`) and a handle whose close succeeds,
`FileWriter.Close` returns nil — the flush failure is swallowed, contrary
to the claim that it is surfaced. -/
theorem C7_close_swallows_flush_error_cx :
    (FileWriterClose ⟨some (.goMsg "disk full")⟩ ⟨none⟩).1 = .ok ()
      ∧ csvWriterError (csvWriterFlush ⟨some (.goMsg "disk full")⟩)
          = some (.goMsg "disk full") :=
  ⟨rfl, rfl⟩

/-- C7 amended: `Close` always flushes and always releases the handle, and
its result is exactly the handle-release result — a handle-release failure
is surfaced, while the flush outcome (`cw.Error()`) is never consulted, so
a flush failure with a clean handle close yields nil. -/
theorem C7_close_flushes_and_surfaces_close_error_only :
    (∀ cw : CsvWriterState, ∀ f : FileHandle, ∀ e : GoError,
        f.closeErr = some e → (FileWriterClose cw f).1 = .error e)
    ∧ (∀ cw : CsvWriterState, ∀ f : FileHandle,
        f.closeErr = none → (FileWriterClose cw f).1 = .ok ())
    ∧ (∀ cw : CsvWriterState, ∀ f : FileHandle,
        (FileWriterClose cw f).2 = (true, true)) := by
  refine ⟨?_, ?_, ?_⟩
  · intro cw f e h
    simp [FileWriterClose, fileClose, h]
  · intro cw f h
    simp [FileWriterClose, fileClose, h]
  · intro cw f
    rfl

/-- Witness for C7: the amended theorem applied at a concrete pending flush
error and a concrete failing handle close. -/
theorem C7_close_flushes_and_surfaces_close_error_only_witness :
    (FileWriterClose ⟨some (.goMsg "disk full")⟩ ⟨some (.goMsg "bad fd")⟩).1
      = .error (.goMsg "bad fd") :=
  C7_close_flushes_and_surfaces_close_error_only.1
    ⟨some (.goMsg "disk full")⟩ ⟨some (.goMsg "bad fd")⟩ (.goMsg "bad fd") rfl

/-! ### C6: installing overrides -/

/-- C6 counterexample: the writer's `AddConverter` accepts a column name
(`"zz"`) regardless of any schema — no schema is even consulted — returning
nil and growing the override table, contrary to the claimed `UnknownColumn`
failure with an unchanged table. -/
theorem C6_writer_addConverter_no_validation_cx :
    (FileWriterAddConverter none "zz" constWConv).1 = .ok ()
      ∧ (FileWriterAddConverter none "zz" constWConv).2.length = 1 :=
  ⟨rfl, rfl⟩

/-- C6 amended: the reader's `AddConvertor` fails with
`ErrNotFoundHeaderInCSV` on a name outside the bound header map and leaves
the override table unchanged (and installs on a bound name); the writer's
`AddConverter` performs no validation at all: it always succeeds and
installs the handler, for any name. -/
theorem C6_override_installation :
    (∀ headerIndex : List (String × Nat), ∀ custom : List (String × RConv),
     ∀ header : String, ∀ handler : RConv,
        (lookupA headerIndex header).isNone →
        FileReaderAddConvertor headerIndex custom header handler
          = (.error .notFoundHeaderInCSV, custom))
    ∧ (∀ headerIndex : List (String × Nat), ∀ custom : List (String × RConv),
       ∀ header : String, ∀ handler : RConv,
        (lookupA headerIndex header).isSome →
        FileReaderAddConvertor headerIndex custom header handler
          = (.ok (), insertA custom header handler))
    ∧ (∀ custom : Option (List (String × WConv)), ∀ header : String, ∀ handler : WConv,
        FileWriterAddConverter custom header handler
          = (.ok (), insertA (custom.getD []) header handler)) := by
  refine ⟨?_, ?_, ?_⟩
  · intro headerIndex custom header handler h
    simp [FileReaderAddConvertor, h]
  · intro headerIndex custom header handler h
    rw [Option.isSome_iff_ne_none] at h
    simp [FileReaderAddConvertor, Option.isNone_iff_eq_none, h]
  · intro custom header handler
    rfl

/-- Witness for C6: the reader rejects an unknown column name, leaving the
(empty) override table unchanged. -/
theorem C6_override_installation_witness :
    FileReaderAddConvertor [("a", 0)] [] "zz" idRConv
      = (.error .notFoundHeaderInCSV, []) :=
  C6_override_installation.1 [("a", 0)] [] "zz" idRConv rfl

/-! ### C2: per-column converter dispatch -/

/-- C2 counterexample: on the write path, a field whose type has no default
converter (`int8`) and no override does not fail with
`ErrConverterNotFoundForType` — the unchecked map read yields a nil
function whose call is a runtime panic (modelled `none`). -/
theorem C2_write_dispatch_panics_cx :
    writeConvertCell [] buildWriteDefaultConverters "a" .i8 (.vInt 0) = none := rfl

/-- C2 amended: on both paths the installed column-name override wins, else
the type default applies; with neither, the read path fails with
`ErrConverterNotFoundForType`, while the write path invokes the nil map
entry — a runtime panic, not an error. -/
theorem C2_dispatch_precedence :
    (∀ custom : List (String × RConv), ∀ defaults : List (GoType × RConv),
     ∀ name ty cell cur, ∀ cv : RConv,
        lookupA custom name = some cv →
        readConvertCell custom defaults name ty cell cur = cv cell ty cur)
    ∧ (∀ custom : List (String × RConv), ∀ defaults : List (GoType × RConv),
       ∀ name ty cell cur, ∀ cv : RConv,
        lookupA custom name = none → lookupA defaults ty = some cv →
        readConvertCell custom defaults name ty cell cur = cv cell ty cur)
    ∧ (∀ custom : List (String × RConv), ∀ defaults : List (GoType × RConv),
       ∀ name ty cell cur,
        lookupA custom name = none → lookupA defaults ty = none →
        readConvertCell custom defaults name ty cell cur
          = some (.error .converterNotFoundForType))
    ∧ (∀ custom : List (String × WConv), ∀ defaults : List (GoType × WConv),
       ∀ name ty v, ∀ cv : WConv,
        lookupA custom name = some cv →
        writeConvertCell custom defaults name ty v = cv v)
    ∧ (∀ custom : List (String × WConv), ∀ defaults : List (GoType × WConv),
       ∀ name ty v, ∀ cv : WConv,
        lookupA custom name = none → lookupA defaults ty = some cv →
        writeConvertCell custom defaults name ty v = cv v)
    ∧ (∀ custom : List (String × WConv), ∀ defaults : List (GoType × WConv),
       ∀ name ty v,
        lookupA custom name = none → lookupA defaults ty = none →
        writeConvertCell custom defaults name ty v = none) := by
  refine ⟨?_, ?_, ?_, ?_, ?_, ?_⟩
  · intro custom defaults name ty cell cur cv h
    simp [readConvertCell, h]
  · intro custom defaults name ty cell cur cv h1 h2
    simp [readConvertCell, h1, h2]
  · intro custom defaults name ty cell cur h1 h2
    simp [readConvertCell, h1, h2]
  · intro custom defaults name ty v cv h
    simp [writeConvertCell, h]
  · intro custom defaults name ty v cv h1 h2
    simp [writeConvertCell, h1, h2]
  · intro custom defaults name ty v h1 h2
    simp [writeConvertCell, h1, h2]

/-- Witness for C2: with no override installed, the read path on an
`int8` field reports `ErrConverterNotFoundForType`. -/
theorem C2_dispatch_precedence_witness :
    readConvertCell [] buildDefaultConverts "a" .i8 "7" (.vInt 0)
      = some (.error .converterNotFoundForType) :=
  C2_dispatch_precedence.2.2.1 [] buildDefaultConverts "a" .i8 "7" (.vInt 0) rfl rfl

/-! ### C3: empty-string input on numeric kinds -/

/-- C3 counterexample: the default int64 read converter actually installed
by `NewFileReader` (from `buildDefaultConverts`) maps the empty string to
nil and leaves the field untouched — it does not fail the row. -/
theorem C3_empty_string_int64_no_error_cx :
    readConvertCell [] buildDefaultConverts "n" .i64 "" (.vInt 0)
      = some (.ok (.vInt 0)) := rfl

/-- C3 amended: in the converter map `NewFileReader` installs
(`buildDefaultConverts`) the non-nullable numeric defaults silently accept
the empty string, leaving the field's current (zero) value; in the newer
`buildReadDefaultConverters` map they fail the row with a conversion error
as the claim states.  For the null-capable numeric wrappers the empty
string succeeds in both maps leaving the zero value, whose `Valid` flag is
false, and writing such a null value emits the empty string. -/
theorem C3_empty_string_numeric_behavior :
    (∀ ty ∈ [GoType.i64, .i32, .i16, .iNative, .u64, .u32, .u16, .uNative, .f64, .f32],
     ∀ cur : GoValue,
        readConvertCell [] buildDefaultConverts "c" ty "" cur = some (.ok cur))
    ∧ (∀ ty ∈ [GoType.i64, .i32, .i16, .iNative, .u64, .u32, .u16, .uNative, .f64, .f32],
       ∀ cur : GoValue, ∃ e : GoError,
        readConvertCell [] buildReadDefaultConverters "c" ty "" cur
          = some (.error e))
    ∧ (∀ ty ∈ [GoType.nullI64, .nullI32, .nullI16, .nullF64],
        readConvertCell [] buildDefaultConverts "c" ty "" (zeroValue ty)
            = some (.ok (zeroValue ty))
          ∧ readConvertCell [] buildReadDefaultConverters "c" ty "" (zeroValue ty)
            = some (.ok (zeroValue ty))
          ∧ nullValidFlag (zeroValue ty) = some false
          ∧ writeConvertCell [] buildWriteDefaultConverters "c" ty (zeroValue ty)
            = some (.ok "")) := by
  refine ⟨?_, ?_, ?_⟩
  · intro ty hty cur
    fin_cases hty <;> rfl
  · intro ty hty cur
    fin_cases hty <;> exact ⟨_, rfl⟩
  · intro ty hty
    fin_cases hty <;> exact ⟨rfl, rfl, rfl, rfl⟩

/-- Witness for C3: the amended theorem applied at `int64` and
`sql.NullInt64`. -/
theorem C3_empty_string_numeric_behavior_witness :
    readConvertCell [] buildDefaultConverts "c" .i64 "" (.vInt 0) = some (.ok (.vInt 0))
      ∧ readConvertCell [] buildDefaultConverts "c" .nullI64 "" (zeroValue .nullI64)
          = some (.ok (zeroValue .nullI64)) :=
  ⟨C3_empty_string_numeric_behavior.1 .i64 (by simp) (.vInt 0),
   (C3_empty_string_numeric_behavior.2.2 .nullI64 (by simp)).1⟩

/-! ### C10: NewFileWriter is not atomic on validation errors -/

/-- C10: `NewFileWriter` truncates the target before validating the record
type; when tag resolution fails, or an explicit output order is longer than
the resolved write names, it returns the error with the file already
truncated and the handle not released. -/
theorem C10_newFileWriter_truncates_before_validation :
    (∀ fields : List (Option String), ∀ sortArg : Option (List String), ∀ e : GoError,
        buildReflectTagIndexCache fields true = .error e →
        NewFileWriter fields sortArg = some ⟨true, false, .error e⟩)
    ∧ (∀ fields : List (Option String), ∀ sort0 : List String,
       ∀ m : List (String × Nat),
        buildReflectTagIndexCache fields true = .ok m →
        m.length < sort0.length →
        NewFileWriter fields (some sort0)
          = some ⟨true, false, .error .toFewStructTags⟩) := by
  constructor
  · intro fields sortArg e h
    unfold NewFileWriter
    rw [h]
  · intro fields sort0 m h hl
    unfold NewFileWriter
    rw [h]
    simp only [if_pos hl]

/-- Witness for C10: a record type with a duplicate tag (`a`, `a`): the
open fails with `ErrStructTagDuplicate`, the target file is truncated, the
handle is not closed. -/
theorem C10_newFileWriter_truncates_before_validation_witness :
    NewFileWriter [some "a", some "a"] none
      = some ⟨true, false, .error .structTagDuplicate⟩ :=
  C10_newFileWriter_truncates_before_validation.1 [some "a", some "a"] none
    .structTagDuplicate (by rfl)


/-! ### Header-binding characterizations (C4, C5, C8) -/

theorem isSome_lookupA_append_singleton {α β : Type} [DecidableEq α]
    (ni : List (α × β)) (k : α) (v : β) (c : α) :
    (lookupA (ni ++ [(k, v)]) c).isSome = true
      ↔ ((lookupA ni c).isSome = true ∨ c = k) := by
  rw [lookupA_append]
  cases h : lookupA ni c with
  | some w => simp
  | none =>
    simp only [lookupA_singleton, Option.isSome_none, Bool.false_eq_true, false_or]
    by_cases hc : c = k
    · simp [hc]
    · simp [hc]

theorem scanHeader_error_eq_dup (tags : List (String × Nat)) :
    ∀ (header : List String) (i : Nat) (ni : List (String × Nat))
      (iname : List (Nat × String)) (e : GoError),
      scanHeader tags header i ni iname = .error e → e = .duplicateHeaderInCSV := by
  intro header
  induction header with
  | nil => intro i ni iname e h; simp [scanHeader] at h
  | cons col rest ih =>
    intro i ni iname e h
    by_cases hA : (lookupA ni col).isSome = true
    · simp only [scanHeader, if_pos hA, Except.error.injEq] at h
      exact h.symm
    · by_cases hB : (lookupA tags col).isSome = true
      · simp only [scanHeader, hA, hB, if_false, if_true, Bool.false_eq_true] at h
        exact ih _ _ _ _ h
      · simp only [scanHeader, hA, hB, if_false, Bool.false_eq_true] at h
        exact ih _ _ _ _ h

theorem scanHeader_dup_iff (tags : List (String × Nat)) :
    ∀ (header : List String) (i : Nat) (ni : List (String × Nat))
      (iname : List (Nat × String)),
      scanHeader tags header i ni iname = .error .duplicateHeaderInCSV
        ↔ ∃ col ∈ header, (lookupA ni col).isSome = true
            ∨ ((lookupA tags col).isSome = true ∧ 2 ≤ header.count col) := by
  intro header
  induction header with
  | nil =>
    intro i ni iname
    simp [scanHeader]
  | cons col₀ rest ih =>
    intro i ni iname
    by_cases hA : (lookupA ni col₀).isSome = true
    · simp only [scanHeader, if_pos hA]
      constructor
      · intro _
        exact ⟨col₀, List.mem_cons_self .., Or.inl hA⟩
      · intro _
        trivial
    · have hcnt_cons : ∀ c : String, (col₀ :: rest).count c
          = rest.count c + if col₀ = c then 1 else 0 := by
        intro c
        simp [List.count_cons, beq_iff_eq]
      by_cases hB : (lookupA tags col₀).isSome = true
      · rw [show scanHeader tags (col₀ :: rest) i ni iname
            = scanHeader tags rest (i + 1) (ni ++ [(col₀, i)]) (iname ++ [(i, col₀)]) from by
          simp [scanHeader, hA, hB]]
        rw [ih (i + 1) (ni ++ [(col₀, i)]) (iname ++ [(i, col₀)])]
        constructor
        · rintro ⟨c, hc, hdisj⟩
          rcases hdisj with hP | ⟨hT, hcount⟩
          · rcases (isSome_lookupA_append_singleton ni col₀ i c).mp hP with hPi | rfl
            · exact ⟨c, List.mem_cons_of_mem _ hc, Or.inl hPi⟩
            · refine ⟨c, List.mem_cons_self .., Or.inr ⟨hB, ?_⟩⟩
              have h1 : 1 ≤ rest.count c := List.count_pos_iff.mpr hc
              rw [hcnt_cons c, if_pos rfl]
              omega
          · refine ⟨c, List.mem_cons_of_mem _ hc, Or.inr ⟨hT, ?_⟩⟩
            rw [hcnt_cons c]
            omega
        · rintro ⟨c, hc, hdisj⟩
          rcases List.mem_cons.mp hc with rfl | hcr
          · rcases hdisj with hP | ⟨_, hcount⟩
            · exact absurd hP hA
            · rw [hcnt_cons c, if_pos rfl] at hcount
              have h1 : 1 ≤ rest.count c := by omega
              have hcm : c ∈ rest := List.count_pos_iff.mp h1
              refine ⟨c, hcm, Or.inl ?_⟩
              exact (isSome_lookupA_append_singleton ni c i c).mpr (Or.inr rfl)
          · rcases hdisj with hP | ⟨hT, hcount⟩
            · refine ⟨c, hcr, Or.inl ?_⟩
              exact (isSome_lookupA_append_singleton ni col₀ i c).mpr (Or.inl hP)
            · by_cases hcc : c = col₀
              · subst hcc
                refine ⟨c, hcr, Or.inl ?_⟩
                exact (isSome_lookupA_append_singleton ni c i c).mpr (Or.inr rfl)
              · refine ⟨c, hcr, Or.inr ⟨hT, ?_⟩⟩
                rw [hcnt_cons c, if_neg (fun h => hcc h.symm)] at hcount
                omega
      · rw [show scanHeader tags (col₀ :: rest) i ni iname
            = scanHeader tags rest (i + 1) ni iname from by
          simp [scanHeader, hA, hB]]
        rw [ih (i + 1) ni iname]
        constructor
        · rintro ⟨c, hc, hdisj⟩
          rcases hdisj with hP | ⟨hT, hcount⟩
          · exact ⟨c, List.mem_cons_of_mem _ hc, Or.inl hP⟩
          · refine ⟨c, List.mem_cons_of_mem _ hc, Or.inr ⟨hT, ?_⟩⟩
            rw [hcnt_cons c]
            omega
        · rintro ⟨c, hc, hdisj⟩
          rcases List.mem_cons.mp hc with rfl | hcr
          · rcases hdisj with hP | ⟨hT, _⟩
            · exact absurd hP hA
            · exact absurd hT hB
          · rcases hdisj with hP | ⟨hT, hcount⟩
            · exact ⟨c, hcr, Or.inl hP⟩
            · by_cases hcc : c = col₀
              · subst hcc
                exact absurd hT hB
              · refine ⟨c, hcr, Or.inr ⟨hT, ?_⟩⟩
                rw [hcnt_cons c, if_neg (fun h => hcc h.symm)] at hcount
                omega

theorem scanHeader_ok_lookup (tags : List (String × Nat)) :
    ∀ (header : List String) (i : Nat) (ni : List (String × Nat))
      (iname : List (Nat × String)) (ni' : List (String × Nat))
      (iname' : List (Nat × String)),
      scanHeader tags header i ni iname = .ok (ni', iname') →
      ∀ k, (lookupA ni' k).isSome = true
        ↔ ((lookupA ni k).isSome = true
            ∨ ((lookupA tags k).isSome = true ∧ k ∈ header)) := by
  intro header
  induction header with
  | nil =>
    intro i ni iname ni' iname' h k
    simp only [scanHeader, Except.ok.injEq, Prod.mk.injEq] at h
    rw [← h.1]
    simp
  | cons col₀ rest ih =>
    intro i ni iname ni' iname' h k
    by_cases hA : (lookupA ni col₀).isSome = true
    · rw [show scanHeader tags (col₀ :: rest) i ni iname
          = .error .duplicateHeaderInCSV from by simp [scanHeader, hA]] at h
      exact Except.noConfusion h
    · by_cases hB : (lookupA tags col₀).isSome = true
      · rw [show scanHeader tags (col₀ :: rest) i ni iname
            = scanHeader tags rest (i + 1) (ni ++ [(col₀, i)]) (iname ++ [(i, col₀)]) from by
          simp [scanHeader, hA, hB]] at h
        rw [ih _ _ _ _ _ h k, isSome_lookupA_append_singleton]
        constructor
        · rintro (⟨hP | rfl⟩ | ⟨hT, hm⟩)
          · exact Or.inl hP
          · exact Or.inr ⟨hB, List.mem_cons_self ..⟩
          · exact Or.inr ⟨hT, List.mem_cons_of_mem _ hm⟩
        · rintro (hP | ⟨hT, hm⟩)
          · exact Or.inl (Or.inl hP)
          · rcases List.mem_cons.mp hm with rfl | hmr
            · exact Or.inl (Or.inr rfl)
            · exact Or.inr ⟨hT, hmr⟩
      · rw [show scanHeader tags (col₀ :: rest) i ni iname
            = scanHeader tags rest (i + 1) ni iname from by
          simp [scanHeader, hA, hB]] at h
        rw [ih _ _ _ _ _ h k]
        constructor
        · rintro (hP | ⟨hT, hm⟩)
          · exact Or.inl hP
          · exact Or.inr ⟨hT, List.mem_cons_of_mem _ hm⟩
        · rintro (hP | ⟨hT, hm⟩)
          · exact Or.inl hP
          · rcases List.mem_cons.mp hm with rfl | hmr
            · exact absurd hT hB
            · exact Or.inr ⟨hT, hmr⟩

theorem scanHeader_ok_positions (tags : List (String × Nat)) :
    ∀ (header : List String) (i : Nat) (ni : List (String × Nat))
      (iname : List (Nat × String)) (ni' : List (String × Nat))
      (iname' : List (Nat × String)),
      scanHeader tags header i ni iname = .ok (ni', iname') →
      ∀ j name, lookupA iname' j = some name →
        lookupA iname j = some name
          ∨ (∃ p, i + p = j ∧ header.get? p = some name
              ∧ (lookupA tags name).isSome = true) := by
  intro header
  induction header with
  | nil =>
    intro i ni iname ni' iname' h j name hj
    simp only [scanHeader, Except.ok.injEq, Prod.mk.injEq] at h
    rw [← h.2] at hj
    exact Or.inl hj
  | cons col₀ rest ih =>
    intro i ni iname ni' iname' h j name hj
    by_cases hA : (lookupA ni col₀).isSome = true
    · rw [show scanHeader tags (col₀ :: rest) i ni iname
          = .error .duplicateHeaderInCSV from by simp [scanHeader, hA]] at h
      exact Except.noConfusion h
    · by_cases hB : (lookupA tags col₀).isSome = true
      · rw [show scanHeader tags (col₀ :: rest) i ni iname
            = scanHeader tags rest (i + 1) (ni ++ [(col₀, i)]) (iname ++ [(i, col₀)]) from by
          simp [scanHeader, hA, hB]] at h
        rcases ih _ _ _ _ _ h j name hj with hbase | ⟨p, hp, hget, hT⟩
        · rw [lookupA_append] at hbase
          cases hbm : lookupA iname j with
          | some w =>
            rw [hbm] at hbase
            exact Or.inl hbase
          | none =>
            rw [hbm] at hbase
            simp only [lookupA_singleton] at hbase
            by_cases hji : j = i
            · rw [if_pos hji] at hbase
              have hcol : col₀ = name := by injection hbase
              refine Or.inr ⟨0, by omega, ?_, ?_⟩
              · simp [hcol]
              · rw [← hcol]
                exact hB
            · rw [if_neg hji] at hbase
              exact Option.noConfusion hbase
        · exact Or.inr ⟨p + 1, by omega, by simpa using hget, hT⟩
      · rw [show scanHeader tags (col₀ :: rest) i ni iname
            = scanHeader tags rest (i + 1) ni iname from by
          simp [scanHeader, hA, hB]] at h
        rcases ih _ _ _ _ _ h j name hj with hbase | ⟨p, hp, hget, hT⟩
        · exact Or.inl hbase
        · exact Or.inr ⟨p + 1, by omega, by simpa using hget, hT⟩


theorem scanHeader_ok_of_no_dup (tags : List (String × Nat)) (header : List String)
    (hnodup : ¬ ∃ col, (lookupA tags col).isSome = true ∧ 2 ≤ header.count col) :
    ∃ ni' iname', scanHeader tags header 0 [] [] = .ok (ni', iname') := by
  cases h : scanHeader tags header 0 [] [] with
  | ok p =>
    obtain ⟨ni, iname⟩ := p
    exact ⟨ni, iname, rfl⟩
  | error e =>
    have he := scanHeader_error_eq_dup tags header 0 [] [] e h
    subst he
    rw [scanHeader_dup_iff] at h
    obtain ⟨col, hcm, hdisj⟩ := h
    rcases hdisj with hP | ⟨hT, hc⟩
    · simp [lookupA] at hP
    · exact absurd ⟨col, hT, hc⟩ hnodup

/-- C4 counterexample: a header whose repeated cell text (`x`) is not a
resolved read-name binds successfully — the duplicate is not detected. -/
theorem C4_nonschema_duplicate_ignored_cx :
    2 ≤ (["x", "x", "a"].count "x")
      ∧ buildHeaderNameIndexCache ["x", "x", "a"] [("a", 0)] ["a"]
          = .ok ([("a", 2)], [(2, "a")]) := by
  constructor
  · decide
  · rfl

/-- C4 amended: read-side header binding fails with
`ErrDuplicateHeaderInCSV` exactly when some cell text that is a resolved
read-name occurs at two header positions; repeated cell texts outside the
schema are silently ignored (first occurrences never enter `nameIndex`, so
the duplicate check cannot fire for them). -/
theorem C4_duplicate_header_detection (header : List String)
    (tags : List (String × Nat)) (enum : List String) :
    buildHeaderNameIndexCache header tags enum = .error .duplicateHeaderInCSV
      ↔ ∃ col, (lookupA tags col).isSome = true ∧ 2 ≤ header.count col := by
  unfold buildHeaderNameIndexCache
  cases h : scanHeader tags header 0 [] [] with
  | error e =>
    have he := scanHeader_error_eq_dup tags header 0 [] [] e h
    subst he
    rw [scanHeader_dup_iff] at h
    constructor
    · intro _
      obtain ⟨col, hcm, hdisj⟩ := h
      rcases hdisj with hP | ⟨hT, hc⟩
      · simp [lookupA] at hP
      · exact ⟨col, hT, hc⟩
    · intro _
      rfl
  | ok p =>
    obtain ⟨ni, iname⟩ := p
    show (if (enum.any fun k => (lookupA ni k).isNone) = true
        then (.error .structTagNotInCSV
          : Except GoError (List (String × Nat) × List (Nat × String)))
        else .ok (ni, iname)) = .error .duplicateHeaderInCSV
      ↔ ∃ col, (lookupA tags col).isSome = true ∧ 2 ≤ header.count col
    constructor
    · intro hx
      by_cases hmiss : (enum.any fun k => (lookupA ni k).isNone) = true
      · rw [if_pos hmiss] at hx
        exact absurd hx (by simp)
      · rw [if_neg hmiss] at hx
        exact absurd hx (by simp)
    · rintro ⟨col, hT, hc⟩
      exfalso
      have hdup : scanHeader tags header 0 [] [] = .error .duplicateHeaderInCSV := by
        rw [scanHeader_dup_iff]
        have h1 : 1 ≤ header.count col := by omega
        exact ⟨col, List.count_pos_iff.mp h1, Or.inr ⟨hT, hc⟩⟩
      rw [h] at hdup
      exact Except.noConfusion hdup

/-- C5 counterexample: header `a,a` against schema `a, b`: the read-name
`b` matches no header cell, yet binding fails with
`ErrDuplicateHeaderInCSV`, not `ErrStructTagNotInCSV` — the duplicate check
takes precedence, so the claimed equivalence fails. -/
theorem C5_duplicate_masks_missing_cx :
    buildHeaderNameIndexCache ["a", "a"] [("a", 0), ("b", 1)] ["a", "b"]
        = .error .duplicateHeaderInCSV
      ∧ (lookupA [("a", 0), ("b", 1)] "b").isSome = true
      ∧ "b" ∉ ["a", "a"] := by
  refine ⟨rfl, rfl, ?_⟩
  decide

/-- C5 amended: with the tag-map enumeration covering exactly the resolved
read-names, binding fails with `ErrStructTagNotInCSV` exactly when no
schema read-name is duplicated in the header (else the duplicate error
takes precedence) and some read-name matches no header cell; when no
schema name is duplicated and every read-name appears, binding succeeds,
every bound position carries a header cell that is a schema read-name, and
`Read` output depends only on the cells at bound positions — cells of
extra columns are ignored. -/
theorem C5_missing_required_and_extra_ignored :
    (∀ (header : List String) (tags : List (String × Nat)) (enum : List String),
      (∀ k, k ∈ enum ↔ (lookupA tags k).isSome = true) →
      (buildHeaderNameIndexCache header tags enum = .error .structTagNotInCSV
        ↔ ((¬ ∃ col, (lookupA tags col).isSome = true ∧ 2 ≤ header.count col)
            ∧ ∃ k, (lookupA tags k).isSome = true ∧ k ∉ header)))
    ∧ (∀ (header : List String) (tags : List (String × Nat)) (enum : List String),
      (∀ k, k ∈ enum ↔ (lookupA tags k).isSome = true) →
      (¬ ∃ col, (lookupA tags col).isSome = true ∧ 2 ≤ header.count col) →
      (∀ k, (lookupA tags k).isSome = true → k ∈ header) →
      ∃ ni iname, buildHeaderNameIndexCache header tags enum = .ok (ni, iname)
        ∧ ∀ j name, lookupA iname j = some name →
            header.get? j = some name ∧ (lookupA tags name).isSome = true)
    ∧ (∀ (custom : List (String × RConv)) (defaults : List (GoType × RConv))
        (ri : List (String × Nat)) (ih : List (Nat × String)) (schema : List GoType)
        (line₁ line₂ : List String),
        line₁.length = line₂.length →
        (∀ j, (lookupA ih j).isSome = true → line₁.get? j = line₂.get? j) →
        readRecord custom defaults ri ih schema line₁
          = readRecord custom defaults ri ih schema line₂) := by
  refine ⟨?_, ?_, ?_⟩
  · intro header tags enum henum
    unfold buildHeaderNameIndexCache
    cases h : scanHeader tags header 0 [] [] with
    | error e =>
      have he := scanHeader_error_eq_dup tags header 0 [] [] e h
      subst he
      rw [scanHeader_dup_iff] at h
      constructor
      · intro hx
        exact absurd hx (by simp)
      · rintro ⟨hnodup, _⟩
        exfalso
        obtain ⟨col, hcm, hdisj⟩ := h
        rcases hdisj with hP | ⟨hT, hc⟩
        · simp [lookupA] at hP
        · exact hnodup ⟨col, hT, hc⟩
    | ok p =>
      obtain ⟨ni, iname⟩ := p
      show (if (enum.any fun k => (lookupA ni k).isNone) = true
          then (.error .structTagNotInCSV
            : Except GoError (List (String × Nat) × List (Nat × String)))
          else .ok (ni, iname)) = .error .structTagNotInCSV
        ↔ (¬ ∃ col, (lookupA tags col).isSome = true ∧ 2 ≤ header.count col)
            ∧ ∃ k, (lookupA tags k).isSome = true ∧ k ∉ header
      have hlk := scanHeader_ok_lookup tags header 0 [] [] ni iname h
      have hnodup : ¬ ∃ col, (lookupA tags col).isSome = true ∧ 2 ≤ header.count col := by
        rintro ⟨col, hT, hc⟩
        have hdup : scanHeader tags header 0 [] [] = .error .duplicateHeaderInCSV := by
          rw [scanHeader_dup_iff]
          have h1 : 1 ≤ header.count col := by omega
          exact ⟨col, List.count_pos_iff.mp h1, Or.inr ⟨hT, hc⟩⟩
        rw [h] at hdup
        exact Except.noConfusion hdup
      by_cases hmiss : (enum.any fun k => (lookupA ni k).isNone) = true
      · rw [if_pos hmiss]
        simp only [List.any_eq_true] at hmiss
        obtain ⟨k, hk, hkn⟩ := hmiss
        constructor
        · intro _
          refine ⟨hnodup, k, (henum k).mp hk, ?_⟩
          intro hmem
          have := (hlk k).mpr (Or.inr ⟨(henum k).mp hk, hmem⟩)
          rw [Option.isNone_iff_eq_none] at hkn
          rw [hkn] at this
          exact Bool.noConfusion this
        · intro _
          rfl
      · rw [if_neg hmiss]
        constructor
        · intro hx
          exact absurd hx (by simp)
        · rintro ⟨_, k, hT, hnm⟩
          exfalso
          apply hmiss
          simp only [List.any_eq_true]
          refine ⟨k, (henum k).mpr hT, ?_⟩
          rw [Option.isNone_iff_eq_none]
          cases hni : lookupA ni k with
          | none => rfl
          | some v =>
            have : (lookupA ni k).isSome = true := by rw [hni]; rfl
            rcases (hlk k).mp this with hfalse | ⟨_, hmem⟩
            · simp [lookupA] at hfalse
            · exact absurd hmem hnm
  · intro header tags enum henum hnodup hall
    obtain ⟨ni, iname, hscan⟩ := scanHeader_ok_of_no_dup tags header hnodup
    have hlk := scanHeader_ok_lookup tags header 0 [] [] ni iname hscan
    refine ⟨ni, iname, ?_, ?_⟩
    · have hred : buildHeaderNameIndexCache header tags enum
          = if (enum.any fun k => (lookupA ni k).isNone) = true
            then .error .structTagNotInCSV else .ok (ni, iname) := by
        unfold buildHeaderNameIndexCache
        rw [hscan]
      rw [hred]
      have hmiss : (enum.any fun k => (lookupA ni k).isNone) = false := by
        rw [Bool.eq_false_iff]
        intro hx
        simp only [List.any_eq_true] at hx
        obtain ⟨k, hk, hkn⟩ := hx
        have hT := (henum k).mp hk
        have := (hlk k).mpr (Or.inr ⟨hT, hall k hT⟩)
        rw [Option.isNone_iff_eq_none] at hkn
        rw [hkn] at this
        exact Bool.noConfusion this
      rw [hmiss]
      simp
    · intro j name hj
      rcases scanHeader_ok_positions tags header 0 [] [] ni iname hscan j name hj with
        hfalse | ⟨p, hp, hget, hT⟩
      · simp [lookupA] at hfalse
      · have hpj : p = j := by omega
        subst hpj
        exact ⟨hget, hT⟩
  · intro custom defaults ri ih schema line₁ line₂ hlen hagree
    unfold readRecord
    have main : ∀ (l₁ l₂ : List String) (i : Nat) (rec : List GoValue),
        l₁.length = l₂.length →
        (∀ j, j < l₁.length → (lookupA ih (i + j)).isSome = true →
          l₁.get? j = l₂.get? j) →
        readRecordAux custom defaults ri ih schema l₁ i rec
          = readRecordAux custom defaults ri ih schema l₂ i rec := by
      intro l₁
      induction l₁ with
      | nil =>
        intro l₂ i rec hl ha
        cases l₂ with
        | nil => rfl
        | cons c r => exact absurd hl (by simp)
      | cons c₁ r₁ ihl =>
        intro l₂ i rec hl ha
        cases l₂ with
        | nil => exact absurd hl (by simp)
        | cons c₂ r₂ =>
          have hrl : r₁.length = r₂.length := by
            simpa using hl
          have hrec : ∀ j, j < r₁.length → (lookupA ih (i + 1 + j)).isSome = true →
              r₁.get? j = r₂.get? j := by
            intro j hj hsome
            have := ha (j + 1) (by simpa using Nat.succ_lt_succ hj)
              (by rwa [show i + (j + 1) = i + 1 + j by omega])
            simpa using this
          cases hbound : lookupA ih i with
          | none =>
            rw [show readRecordAux custom defaults ri ih schema (c₁ :: r₁) i rec
                = readRecordAux custom defaults ri ih schema r₁ (i + 1) rec from by
              simp [readRecordAux, hbound]]
            rw [show readRecordAux custom defaults ri ih schema (c₂ :: r₂) i rec
                = readRecordAux custom defaults ri ih schema r₂ (i + 1) rec from by
              simp [readRecordAux, hbound]]
            exact ihl r₂ (i + 1) rec hrl hrec
          | some hrName =>
            have hc : c₁ = c₂ := by
              have := ha 0 (by simp) (by simp [hbound])
              simpa using this
            subst hc
            rw [show readRecordAux custom defaults ri ih schema (c₁ :: r₁) i rec
                = (match schema.get? ((lookupA ri hrName).getD 0),
                    rec.get? ((lookupA ri hrName).getD 0) with
                  | some ty, some cur =>
                    match readConvertCell custom defaults hrName ty c₁ cur with
                    | none => none
                    | some (.error e) => some (.error e)
                    | some (.ok v) =>
                      readRecordAux custom defaults ri ih schema r₁ (i + 1)
                        (rec.set ((lookupA ri hrName).getD 0) v)
                  | _, _ => none) from by
              simp [readRecordAux, hbound]]
            rw [show readRecordAux custom defaults ri ih schema (c₁ :: r₂) i rec
                = (match schema.get? ((lookupA ri hrName).getD 0),
                    rec.get? ((lookupA ri hrName).getD 0) with
                  | some ty, some cur =>
                    match readConvertCell custom defaults hrName ty c₁ cur with
                    | none => none
                    | some (.error e) => some (.error e)
                    | some (.ok v) =>
                      readRecordAux custom defaults ri ih schema r₂ (i + 1)
                        (rec.set ((lookupA ri hrName).getD 0) v)
                  | _, _ => none) from by
              simp [readRecordAux, hbound]]
            cases schema.get? ((lookupA ri hrName).getD 0) with
            | none => rfl
            | some ty =>
              cases rec.get? ((lookupA ri hrName).getD 0) with
              | none => rfl
              | some cur =>
                show (match readConvertCell custom defaults hrName ty c₁ cur with
                      | none => none
                      | some (Except.error e) => some (Except.error e)
                      | some (Except.ok v) =>
                        readRecordAux custom defaults ri ih schema r₁ (i + 1)
                          (rec.set ((lookupA ri hrName).getD 0) v)
                    : Option (Except GoError (List GoValue)))
                    = (match readConvertCell custom defaults hrName ty c₁ cur with
                      | none => none
                      | some (Except.error e) => some (Except.error e)
                      | some (Except.ok v) =>
                        readRecordAux custom defaults ri ih schema r₂ (i + 1)
                          (rec.set ((lookupA ri hrName).getD 0) v))
                cases readConvertCell custom defaults hrName ty c₁ cur with
                | none => rfl
                | some r =>
                  cases r with
                  | error e => rfl
                  | ok v => exact ihl r₂ (i + 1) _ hrl hrec
    exact main line₁ line₂ 0 (schema.map zeroValue) hlen
      (fun j hj hsome => hagree j (by simpa using hsome))

/-- Witness for C5: a schema `id, x` bound against the header `id` (no
duplicates, `x` missing) fails with `ErrStructTagNotInCSV`. -/
theorem C5_missing_required_and_extra_ignored_witness :
    buildHeaderNameIndexCache ["id"] [("id", 0), ("x", 1)] ["id", "x"]
      = .error .structTagNotInCSV :=
  (C5_missing_required_and_extra_ignored.1 ["id"] [("id", 0), ("x", 1)] ["id", "x"]
      (by
        intro k
        simp only [lookupA, List.mem_cons, List.not_mem_nil, or_false]
        by_cases h1 : k = "id"
        · simp [h1]
        · by_cases h2 : k = "x"
          · simp [h1, h2]
          · simp [h1, h2])).mpr
    ⟨by
      rintro ⟨col, _, hc⟩
      have hle : List.count col ["id"] ≤ 1 := by
        by_cases h : col = "id" <;> simp [List.count_cons, h]
      omega,
     "x", by decide, by decide⟩

/-- Composition of read-side schema resolution and header binding, the
subject of the determinism claim; `tagEnum` is the map iteration order of
the completeness check. -/
def resolveAndBind (fields : List (Option String)) (headerLine : List String)
    (tagEnum : List String) :
    Except GoError (List (String × Nat) × List (Nat × String)) :=
  match buildReflectTagIndexCache fields false with
  | .error e => .error e
  | .ok tags => buildHeaderNameIndexCache headerLine tags tagEnum

theorem perm_any {α : Type} (f : α → Bool) {l₁ l₂ : List α} (h : l₁.Perm l₂) :
    l₁.any f = l₂.any f := by
  cases h1 : l₁.any f <;> cases h2 : l₂.any f
  · rfl
  · rw [List.any_eq_true] at h2
    obtain ⟨x, hx, hfx⟩ := h2
    have : l₁.any f = true := List.any_eq_true.mpr ⟨x, h.mem_iff.mpr hx, hfx⟩
    rw [h1] at this
    exact Bool.noConfusion this
  · rw [List.any_eq_true] at h1
    obtain ⟨x, hx, hfx⟩ := h1
    have : l₂.any f = true := List.any_eq_true.mpr ⟨x, h.mem_iff.mp hx, hfx⟩
    rw [h2] at this
    exact Bool.noConfusion this
  · rfl

/-- C8: schema resolution composed with header binding is a deterministic
function of the field tags (in declaration order) and the header order: the
only unordered input is the map iteration order of the completeness check,
and any two iteration orders (permutations of each other) give identical
name→position and position→name maps. -/
theorem C8_resolve_bind_deterministic (fields : List (Option String))
    (headerLine : List String) (enum₁ enum₂ : List String)
    (h : enum₁.Perm enum₂) :
    resolveAndBind fields headerLine enum₁ = resolveAndBind fields headerLine enum₂ := by
  unfold resolveAndBind
  cases buildReflectTagIndexCache fields false with
  | error e => rfl
  | ok tags =>
    show buildHeaderNameIndexCache headerLine tags enum₁
        = buildHeaderNameIndexCache headerLine tags enum₂
    unfold buildHeaderNameIndexCache
    cases scanHeader tags headerLine 0 [] [] with
    | error e => rfl
    | ok p =>
      obtain ⟨ni, iname⟩ := p
      show (if (enum₁.any fun k => (lookupA ni k).isNone) = true
          then (.error .structTagNotInCSV
            : Except GoError (List (String × Nat) × List (Nat × String)))
          else .ok (ni, iname))
        = (if (enum₂.any fun k => (lookupA ni k).isNone) = true
          then .error .structTagNotInCSV else .ok (ni, iname))
      rw [perm_any (fun k => (lookupA ni k).isNone) h]

/-- Witness for C8: two opposite iteration orders over the tag map of a
two-field schema yield the same binding. -/
theorem C8_resolve_bind_deterministic_witness :
    resolveAndBind [some "a", some "b"] ["a", "b"] ["a", "b"]
      = resolveAndBind [some "a", some "b"] ["a", "b"] ["b", "a"] :=
  C8_resolve_bind_deterministic [some "a", some "b"] ["a", "b"] ["a", "b"] ["b", "a"]
    (by decide)


/-! ### Default output order construction (C9) -/

/-- Resolved bound column name of one field for the given direction,
mirroring the name computation of `buildTagIndexAux` (split on comma, write
side takes the second segment when present, `""` and `"-"` are excluded). -/
def tagResolvedName (forWrite : Bool) (f : Option String) : Option String :=
  match f with
  | none => none
  | some tag =>
    let parts0 := splitOnComma tag
    let parts := if forWrite ∧ 1 < parts0.length then parts0.drop 1 else parts0
    let name := parts.headD ""
    if name ≠ "" ∧ name ≠ "-" then some name else none

/-- The (name, field-index) pairs of the bound fields, in declaration
order, starting at field index `i`. -/
def boundPairsFrom (forWrite : Bool) (i : Nat) : List (Option String) → List (String × Nat)
  | [] => []
  | f :: rest =>
    match tagResolvedName forWrite f with
    | some n => (n, i) :: boundPairsFrom forWrite (i + 1) rest
    | none => boundPairsFrom forWrite (i + 1) rest

theorem buildTagIndexAux_ok_eq (fw : Bool) :
    ∀ (fields : List (Option String)) (i : Nat) (acc m : List (String × Nat)),
      buildTagIndexAux fw fields i acc = .ok m →
      m = acc ++ boundPairsFrom fw i fields := by
  intro fields
  induction fields with
  | nil =>
    intro i acc m h
    simp only [buildTagIndexAux, Except.ok.injEq] at h
    simp [boundPairsFrom, ← h]
  | cons f rest ih =>
    intro i acc m h
    cases f with
    | none =>
      rw [show buildTagIndexAux fw (none :: rest) i acc
          = buildTagIndexAux fw rest (i + 1) acc from rfl] at h
      rw [ih _ _ _ h]
      rfl
    | some tag =>
      rw [show buildTagIndexAux fw (some tag :: rest) i acc
          = (let parts0 := splitOnComma tag
             let parts := if fw ∧ 1 < parts0.length then parts0.drop 1 else parts0
             let name := parts.headD ""
             if (lookupA acc name).isSome then .error .structTagDuplicate
             else if name ≠ "" ∧ name ≠ "-" then
               buildTagIndexAux fw rest (i + 1) (acc ++ [(name, i)])
             else buildTagIndexAux fw rest (i + 1) acc) from rfl] at h
      simp only at h
      set name := (if fw ∧ 1 < (splitOnComma tag).length
        then (splitOnComma tag).drop 1 else splitOnComma tag).headD "" with hname
      have hres : tagResolvedName fw (some tag)
          = if name ≠ "" ∧ name ≠ "-" then some name else none := rfl
      by_cases hdup : (lookupA acc name).isSome = true
      · rw [if_pos hdup] at h
        exact Except.noConfusion h
      · rw [if_neg hdup] at h
        by_cases hbound : name ≠ "" ∧ name ≠ "-"
        · rw [if_pos hbound] at h
          rw [ih _ _ _ h]
          rw [show boundPairsFrom fw i (some tag :: rest)
              = (name, i) :: boundPairsFrom fw (i + 1) rest from by
            rw [show boundPairsFrom fw i (some tag :: rest)
                = (match tagResolvedName fw (some tag) with
                   | some n => (n, i) :: boundPairsFrom fw (i + 1) rest
                   | none => boundPairsFrom fw (i + 1) rest) from rfl,
              hres, if_pos hbound]]
          simp
        · rw [if_neg hbound] at h
          rw [ih _ _ _ h]
          rw [show boundPairsFrom fw i (some tag :: rest)
              = boundPairsFrom fw (i + 1) rest from by
            rw [show boundPairsFrom fw i (some tag :: rest)
                = (match tagResolvedName fw (some tag) with
                   | some n => (n, i) :: boundPairsFrom fw (i + 1) rest
                   | none => boundPairsFrom fw (i + 1) rest) from rfl,
              hres, if_neg hbound]]

theorem mem_boundPairsFrom_snd (fw : Bool) :
    ∀ (fields : List (Option String)) (i v : Nat),
      v ∈ (boundPairsFrom fw i fields).map Prod.snd
        ↔ (i ≤ v ∧ ∃ f, fields.get? (v - i) = some f
            ∧ (tagResolvedName fw f).isSome = true) := by
  intro fields
  induction fields with
  | nil =>
    intro i v
    simp [boundPairsFrom]
  | cons f rest ih =>
    intro i v
    cases hres : tagResolvedName fw f with
    | some n =>
      rw [show boundPairsFrom fw i (f :: rest)
          = (n, i) :: boundPairsFrom fw (i + 1) rest from by
        rw [show boundPairsFrom fw i (f :: rest)
            = (match tagResolvedName fw f with
               | some n => (n, i) :: boundPairsFrom fw (i + 1) rest
               | none => boundPairsFrom fw (i + 1) rest) from rfl, hres]]
      simp only [List.map_cons, List.mem_cons]
      rw [ih (i + 1) v]
      constructor
      · rintro (rfl | ⟨hle, g, hg, hgs⟩)
        · refine ⟨le_refl v, f, ?_, ?_⟩
          · simp
          · rw [hres]; rfl
        · refine ⟨by omega, g, ?_, hgs⟩
          rw [show v - i = (v - (i + 1)) + 1 by omega]
          simpa using hg
      · rintro ⟨hle, g, hg, hgs⟩
        by_cases hvi : v = i
        · exact Or.inl hvi
        · refine Or.inr ⟨by omega, g, ?_, hgs⟩
          rw [show v - i = (v - (i + 1)) + 1 by omega] at hg
          simpa using hg
    | none =>
      rw [show boundPairsFrom fw i (f :: rest)
          = boundPairsFrom fw (i + 1) rest from by
        rw [show boundPairsFrom fw i (f :: rest)
            = (match tagResolvedName fw f with
               | some n => (n, i) :: boundPairsFrom fw (i + 1) rest
               | none => boundPairsFrom fw (i + 1) rest) from rfl, hres]]
      rw [ih (i + 1) v]
      constructor
      · rintro ⟨hle, g, hg, hgs⟩
        refine ⟨by omega, g, ?_, hgs⟩
        rw [show v - i = (v - (i + 1)) + 1 by omega]
        simpa using hg
      · rintro ⟨hle, g, hg, hgs⟩
        by_cases hvi : v = i
        · subst hvi
          simp only [Nat.sub_self, List.get?] at hg
          injection hg with hfg
          rw [← hfg] at hgs
          rw [hres] at hgs
          exact Bool.noConfusion hgs
        · refine ⟨by omega, g, ?_, hgs⟩
          rw [show v - i = (v - (i + 1)) + 1 by omega] at hg
          simpa using hg

theorem boundPairsFrom_snd_ge (fw : Bool) :
    ∀ (fields : List (Option String)) (i : Nat) (v : Nat),
      v ∈ (boundPairsFrom fw i fields).map Prod.snd → i ≤ v := by
  intro fields i v hv
  exact ((mem_boundPairsFrom_snd fw fields i v).mp hv).1

theorem boundPairsFrom_snd_nodup (fw : Bool) :
    ∀ (fields : List (Option String)) (i : Nat),
      ((boundPairsFrom fw i fields).map Prod.snd).Nodup := by
  intro fields
  induction fields with
  | nil => intro i; simp [boundPairsFrom]
  | cons f rest ih =>
    intro i
    cases hres : tagResolvedName fw f with
    | some n =>
      rw [show boundPairsFrom fw i (f :: rest)
          = (n, i) :: boundPairsFrom fw (i + 1) rest from by
        rw [show boundPairsFrom fw i (f :: rest)
            = (match tagResolvedName fw f with
               | some n => (n, i) :: boundPairsFrom fw (i + 1) rest
               | none => boundPairsFrom fw (i + 1) rest) from rfl, hres]]
      rw [List.map_cons, List.nodup_cons]
      refine ⟨?_, ih (i + 1)⟩
      intro hmem
      have := boundPairsFrom_snd_ge fw rest (i + 1) i hmem
      omega
    | none =>
      rw [show boundPairsFrom fw i (f :: rest)
          = boundPairsFrom fw (i + 1) rest from by
        rw [show boundPairsFrom fw i (f :: rest)
            = (match tagResolvedName fw f with
               | some n => (n, i) :: boundPairsFrom fw (i + 1) rest
               | none => boundPairsFrom fw (i + 1) rest) from rfl, hres]]
      exact ih (i + 1)

theorem defaultSortAux_none_iff :
    ∀ (m : List (String × Nat)) (acc : List String),
      defaultSortAux m acc = none ↔ ∃ p ∈ m, acc.length ≤ p.2 := by
  intro m
  induction m with
  | nil => intro acc; simp [defaultSortAux]
  | cons p rest ih =>
    intro acc
    obtain ⟨name, v⟩ := p
    by_cases hv : v < acc.length
    · rw [show defaultSortAux ((name, v) :: rest) acc
          = defaultSortAux rest (acc.set v name) from by
        simp [defaultSortAux, hv]]
      rw [ih (acc.set v name)]
      constructor
      · rintro ⟨q, hq, hlen⟩
        rw [List.length_set] at hlen
        exact ⟨q, List.mem_cons_of_mem _ hq, hlen⟩
      · rintro ⟨q, hq, hlen⟩
        rcases List.mem_cons.mp hq with rfl | hqr
        · exfalso
          simp only at hlen
          omega
        · exact ⟨q, hqr, by rwa [List.length_set]⟩
    · rw [show defaultSortAux ((name, v) :: rest) acc = none from by
        simp [defaultSortAux, hv]]
      constructor
      · intro _
        exact ⟨(name, v), List.mem_cons_self .., by simp; omega⟩
      · intro _
        rfl

theorem nodup_all_lt_mem_iff {S : List Nat} (hnd : S.Nodup)
    (hlt : ∀ v ∈ S, v < S.length) : ∀ v, v ∈ S ↔ v < S.length := by
  have hsub : S.toFinset ⊆ Finset.range S.length := by
    intro v hv
    rw [List.mem_toFinset] at hv
    exact Finset.mem_range.mpr (hlt v hv)
  have hcard : (Finset.range S.length).card ≤ S.toFinset.card := by
    rw [Finset.card_range, List.toFinset_card_of_nodup hnd]
  have heq := Finset.eq_of_subset_of_card_le hsub hcard
  intro v
  constructor
  · exact hlt v
  · intro hvlt
    have : v ∈ S.toFinset := by
      rw [heq]
      exact Finset.mem_range.mpr hvlt
    rwa [List.mem_toFinset] at this

theorem defaultSortAux_range (m : List (String × Nat)) :
    ∀ (i : Nat) (acc : List String),
      m.map Prod.snd = List.range' i m.length →
      i + m.length ≤ acc.length →
      defaultSortAux m acc
        = some (acc.take i ++ m.map Prod.fst ++ acc.drop (i + m.length)) := by
  induction m with
  | nil =>
    intro i acc _ _
    simp [defaultSortAux, List.take_append_drop]
  | cons p rest ih =>
    intro i acc hsnd hlen
    obtain ⟨name, v⟩ := p
    simp only [List.map_cons, List.length_cons] at hsnd
    rw [List.range'_succ] at hsnd
    have hv : v = i := by
      have := List.head_eq_of_cons_eq hsnd
      simpa using this
    have hrest : rest.map Prod.snd = List.range' (i + 1) rest.length :=
      List.tail_eq_of_cons_eq hsnd
    subst hv
    have hvlt : v < acc.length := by
      simp only [List.length_cons] at hlen
      omega
    rw [show defaultSortAux ((name, v) :: rest) acc
        = defaultSortAux rest (acc.set v name) from by
      simp [defaultSortAux, hvlt]]
    have hlen' : (v + 1) + rest.length ≤ (acc.set v name).length := by
      rw [List.length_set]
      simp only [List.length_cons] at hlen
      omega
    rw [ih (v + 1) (acc.set v name) hrest hlen']
    have hset : acc.set v name = acc.take v ++ name :: acc.drop (v + 1) :=
      List.set_eq_take_cons_drop name hvlt
    have htake : (acc.set v name).take (v + 1) = acc.take v ++ [name] := by
      rw [hset, List.take_append_eq_append_take]
      have h1 : (acc.take v).length = v := by
        rw [List.length_take]
        omega
      rw [List.take_of_length_le (by omega)]
      rw [h1]
      simp
    have hdrop : (acc.set v name).drop (v + 1 + rest.length)
        = acc.drop (v + (rest.length + 1)) := by
      rw [hset, List.drop_append_eq_append_drop]
      have h1 : (acc.take v).length = v := by
        rw [List.length_take]
        omega
      rw [List.drop_eq_nil_of_le (by omega)]
      rw [h1]
      rw [show v + 1 + rest.length - v = rest.length + 1 by omega]
      simp only [List.nil_append]
      rw [List.drop_succ_cons]
      rw [List.drop_drop]
      congr 1
      omega
    rw [htake, hdrop]
    simp only [List.map_cons, List.length_cons]
    congr 1
    rw [List.append_assoc]
    simp

theorem defaultSort_of_range (m : List (String × Nat))
    (h : m.map Prod.snd = List.range m.length) :
    defaultSort m = some (m.map Prod.fst) := by
  unfold defaultSort
  rw [List.range_eq_range'] at h
  rw [defaultSortAux_range m 0 (List.replicate m.length "") h (by simp)]
  simp

/-- C9: the default output order of `NewFileWriter` stores each write-name
at its struct-field index in a slice of length equal to the number of
write-bound fields.
Conjunct 1: whenever an untagged or write-excluded field is declared before
a write-bound field, this indexes past the end of the slice — a runtime
panic (`none`).
Conjunct 2: conversely, whenever the construction completes, the bound
field indexes are exactly `0 .. n-1`.
Conjunct 3: on a map whose field indexes are exactly `0 .. n-1` in order,
the construction is total and yields the names in declaration order. -/
theorem C9_default_order_bounds :
    (∀ (fields : List (Option String)) (m : List (String × Nat)) (j k : Nat)
       (fj fk : Option String),
        buildReflectTagIndexCache fields true = .ok m →
        j < k →
        fields.get? j = some fj → tagResolvedName true fj = none →
        fields.get? k = some fk → (tagResolvedName true fk).isSome = true →
        NewFileWriter fields none = none)
    ∧ (∀ (fields : List (Option String)) (m : List (String × Nat)) (s : List String),
        buildReflectTagIndexCache fields true = .ok m →
        defaultSort m = some s →
        ∀ v, v ∈ m.map Prod.snd ↔ v < m.length)
    ∧ (∀ m : List (String × Nat),
        m.map Prod.snd = List.range m.length →
        defaultSort m = some (m.map Prod.fst)) := by
  refine ⟨?_, ?_, ?_⟩
  · intro fields m j k fj fk hbuild hjk hgj hresj hgk hresk
    have hm : m = boundPairsFrom true 0 fields := by
      have := buildTagIndexAux_ok_eq true fields 0 [] m hbuild
      simpa using this
    have hknotj : k ∈ m.map Prod.snd := by
      rw [hm, mem_boundPairsFrom_snd]
      exact ⟨Nat.zero_le k, fk, by simpa using hgk, hresk⟩
    have hjnot : j ∉ m.map Prod.snd := by
      rw [hm, mem_boundPairsFrom_snd]
      rintro ⟨_, g, hg, hgs⟩
      simp only [Nat.sub_zero] at hg
      rw [hgj] at hg
      injection hg with hfg
      rw [← hfg] at hgs
      rw [hresj] at hgs
      exact Bool.noConfusion hgs
    have hnd : (m.map Prod.snd).Nodup := by
      rw [hm]
      exact boundPairsFrom_snd_nodup true fields 0
    have hex : ∃ v ∈ m.map Prod.snd, (m.map Prod.snd).length ≤ v := by
      by_contra hcon
      push_neg at hcon
      have := nodup_all_lt_mem_iff hnd hcon
      have hklen : k < (m.map Prod.snd).length := hcon k hknotj
      exact hjnot ((this j).mpr (by omega))
    have hsort : defaultSort m = none := by
      unfold defaultSort
      rw [defaultSortAux_none_iff]
      obtain ⟨v, hv, hlen⟩ := hex
      rw [List.length_map] at hlen
      obtain ⟨⟨nm, v'⟩, hpm, hpv⟩ := List.mem_map.mp hv
      refine ⟨(nm, v'), hpm, ?_⟩
      simp only at hpv
      subst hpv
      simpa using hlen
    unfold NewFileWriter
    rw [hbuild]
    show (match defaultSort m with
          | none => (none : Option WriterOpen)
          | some sort0 =>
            match buildWriteHeaderNameIndexCache sort0 m with
            | .error e => some ⟨true, true, .error e⟩
            | .ok (ni, iname) => some ⟨true, false, .ok ⟨sort0, m, ni, iname⟩⟩)
        = none
    rw [hsort]
  · intro fields m s hbuild hsort v
    have hnd : (m.map Prod.snd).Nodup := by
      rw [buildTagIndexAux_ok_eq true fields 0 [] m hbuild]
      simpa using boundPairsFrom_snd_nodup true fields 0
    have hlt : ∀ w ∈ m.map Prod.snd, w < (m.map Prod.snd).length := by
      intro w hw
      rw [List.length_map]
      by_contra hcon
      have hnone : defaultSort m = none := by
        unfold defaultSort
        rw [defaultSortAux_none_iff]
        obtain ⟨⟨nm, w'⟩, hpm, hpw⟩ := List.mem_map.mp hw
        refine ⟨(nm, w'), hpm, ?_⟩
        simp only at hpw
        subst hpw
        simpa using Nat.le_of_not_lt hcon
      rw [hnone] at hsort
      exact Option.noConfusion hsort
    have := nodup_all_lt_mem_iff hnd hlt v
    rwa [List.length_map] at this
  · exact defaultSort_of_range

/-- Witness for C9: the record type with an untagged field before a tagged
one (`[none, some "a"]`): the default-order construction panics. -/
theorem C9_default_order_bounds_witness :
    NewFileWriter [none, some "a"] none = none :=
  C9_default_order_bounds.1 [none, some "a"] [("a", 1)] 0 1 none (some "a")
    rfl (by omega) rfl rfl rfl rfl


/-! ### Round trip through the default converters (C1) -/

/-- Values that survive the textual round trip through the default write
converters and the default read converters `NewFileReader` installs
(`buildDefaultConverts`): well-typed payloads within the destination range;
timestamps restricted to what the second-precision `time.DateTime` layout
renders faithfully; null-capable wrappers in a valid non-degenerate state or
in the zero null state (reading an empty cell leaves the zero value, so a
null with a nonzero payload, or a valid-but-empty `NullString`, cannot come
back identical); `sql.NullFloat64` only in the null state (its old read
converter panics on nonempty input); `bool` and `sql.NullBool` are excluded
(no entry in `buildDefaultConverts`). -/
def roundTrippable : GoType → GoValue → Bool
  | .i64, .vInt v => decide (-(2 ^ 63) ≤ v) && decide (v < 2 ^ 63)
  | .u64, .vUint v => decide (v < 2 ^ 64)
  | .f64, .vFloat x => decide x.canonical
  | .str, .vStr _ => true
  | .time, .vTime t => validGoDate t && decide (t.nsec = 0)
  | .nullStr, .vNullStr s valid => if valid then decide (s ≠ "") else decide (s = "")
  | .nullI64, .vNullInt v valid =>
    if valid then decide (-(2 ^ 63) ≤ v) && decide (v < 2 ^ 63) else decide (v = 0)
  | .nullI32, .vNullInt v valid =>
    if valid then decide (-(2 ^ 31) ≤ v) && decide (v < 2 ^ 31) else decide (v = 0)
  | .nullI16, .vNullInt v valid =>
    if valid then decide (-(2 ^ 15) ≤ v) && decide (v < 2 ^ 15) else decide (v = 0)
  | .nullF64, .vNullFloat x valid => !valid && decide (x = ⟨0, 0⟩)
  | .nullTime, .vNullTime t valid =>
    if valid then validGoDate t && decide (t.nsec = 0) else decide (t = zeroGoTime)
  | _, _ => false

/-- The cell text the default write converters emit for a field value. -/
def encodeField : GoValue → String
  | .vInt v => goFormatInt v
  | .vUint v => goFormatUint v
  | .vFloat x => goFormatFloat x
  | .vStr s => s
  | .vBool b => goFormatBool b
  | .vTime t => String.mk (renderDateTimeChars t)
  | .vNullStr s valid => if valid then s else ""
  | .vNullInt v valid => if valid then goFormatInt v else ""
  | .vNullFloat x valid => if valid then goFormatFloat x else ""
  | .vNullBool b valid => if valid then goFormatBool b else ""
  | .vNullTime t valid => if valid then String.mk (renderDateTimeChars t) else ""

theorem string_mk_ne_empty (l : List Char) (h : l ≠ []) : String.mk l ≠ "" := by
  intro hc
  apply h
  have := congrArg String.data hc
  simpa using this

theorem formatIntChars_ne_nil (v : Int) : formatIntChars v ≠ [] := by
  unfold formatIntChars
  by_cases h : v < 0
  · rw [if_pos h]
    simp
  · rw [if_neg h]
    exact formatNatChars_ne_nil _

theorem formatFloatChars_ne_nil (x : GoFloat) : formatFloatChars x ≠ [] := by
  unfold formatFloatChars
  by_cases hk : x.k = 0
  · rw [if_pos hk]
    exact formatIntChars_ne_nil _
  · rw [if_neg hk]
    by_cases hm : x.m < 0
    · rw [if_pos hm]
      simp
    · rw [if_neg hm]
      intro hc
      exact formatNatChars_ne_nil _ (List.append_eq_nil.mp hc).1

theorem renderDateTimeChars_ne_nil (t : GoTime) : renderDateTimeChars t ≠ [] := by
  unfold renderDateTimeChars
  intro hc
  have := congrArg List.length hc
  rw [List.length_append, padDigits_length] at this
  simp at this

theorem goParseInt_goFormatInt (bits : Nat) (n : Int)
    (h₁ : -(2 ^ (bits - 1)) ≤ n) (h₂ : n ≤ 2 ^ (bits - 1) - 1) :
    goParseInt bits (goFormatInt n) = .ok n := by
  unfold goParseInt goFormatInt
  rw [show (String.mk (formatIntChars n)).data = formatIntChars n from rfl,
    parseIntChars_formatIntChars]
  show (if n < -(2 ^ (bits - 1)) ∨ (2 : Int) ^ (bits - 1) - 1 < n
      then Except.error GoError.numRange else .ok n) = .ok n
  rw [if_neg (by push_neg; exact ⟨by omega, by omega⟩)]

theorem goParseUint64_goFormatUint (n : Nat) (h : n < 2 ^ 64) :
    goParseUint64 (goFormatUint n) = .ok n := by
  unfold goParseUint64 goFormatUint
  rw [show (String.mk (formatNatChars n)).data = formatNatChars n from rfl,
    parseNatChars_formatNatChars]
  show (if 2 ^ 64 ≤ n then Except.error GoError.numRange else .ok n) = .ok n
  rw [if_neg (by omega)]

theorem goParseFloat_goFormatFloat (x : GoFloat) :
    goParseFloat (goFormatFloat x) = .ok x := by
  unfold goParseFloat goFormatFloat
  rw [show (String.mk (formatFloatChars x)).data = formatFloatChars x from rfl,
    parseFloatChars_formatFloatChars]

theorem goFormatInt_ne_empty (n : Int) : goFormatInt n ≠ "" :=
  string_mk_ne_empty _ (formatIntChars_ne_nil n)

theorem goFormatUint_ne_empty (n : Nat) : goFormatUint n ≠ "" :=
  string_mk_ne_empty _ (formatNatChars_ne_nil n)

theorem goFormatFloat_ne_empty (x : GoFloat) : goFormatFloat x ≠ "" :=
  string_mk_ne_empty _ (formatFloatChars_ne_nil x)

theorem overflowInt_i64_false (n : Int) (h₁ : -(2 ^ 63) ≤ n) (h₂ : n < 2 ^ 63) :
    overflowInt .i64 n = false := by
  simp only [overflowInt, intBits, Bool.or_eq_false_iff, decide_eq_false_iff_not]
  constructor <;> omega

theorem overflowUint_u64_false (n : Nat) (h : n < 2 ^ 64) :
    overflowUint .u64 n = false := by
  simp only [overflowUint, uintBits, decide_eq_false_iff_not]
  omega

theorem tryTimeFormats_dateTime (merid : Char) (t : GoTime)
    (h : validGoDate t = true) (hns : t.nsec = 0) :
    tryTimeFormats (csvdocTimeFormats merid) (renderDateTimeChars t) = some t := by
  unfold csvdocTimeFormats
  rw [show tryTimeFormats
      [parseDateTimeChars, parseDateOnlyChars, parseRFC3339Chars,
       parseRFC3339NanoChars, parseUSFixedChars merid, parseUSVarChars merid]
      (renderDateTimeChars t)
      = (match parseDateTimeChars (renderDateTimeChars t) with
         | some u => some u
         | none => tryTimeFormats
            [parseDateOnlyChars, parseRFC3339Chars, parseRFC3339NanoChars,
             parseUSFixedChars merid, parseUSVarChars merid]
            (renderDateTimeChars t)) from rfl,
    parseDateTimeChars_renderDateTimeChars t h]
  obtain ⟨y, mo, d, h24, mi, sec, ns⟩ := t
  simp only at hns
  subst hns
  rfl

/-- Write-side half of the per-field round trip: on a well-typed value the
type-keyed default write converter emits `encodeField`. -/
theorem write_default_encodes (ty : GoType) (v : GoValue) (name : String)
    (h : roundTrippable ty v = true) :
    writeConvertCell [] buildWriteDefaultConverters name ty v
      = some (.ok (encodeField v)) := by
  cases ty <;> cases v <;> first | rfl | exact Bool.noConfusion h

/-- Read-side half of the per-field round trip: feeding the emitted cell to
the type-keyed default read converter of `buildDefaultConverts`, starting
from the zero value `new(T)` provides, reproduces the original value. -/
theorem read_default_decodes (ty : GoType) (v : GoValue) (name : String)
    (h : roundTrippable ty v = true) :
    readConvertCell [] buildDefaultConverts name ty (encodeField v) (zeroValue ty)
      = some (.ok v) := by
  cases ty <;> cases v <;> try exact Bool.noConfusion h
  case i64.vInt n =>
    simp only [roundTrippable, Bool.and_eq_true, decide_eq_true_eq] at h
    rw [show readConvertCell [] buildDefaultConverts name .i64 (encodeField (.vInt n))
        (zeroValue .i64) = intConversionOld (goFormatInt n) .i64 (zeroValue .i64) from rfl]
    unfold intConversionOld
    rw [if_pos (goFormatInt_ne_empty n),
      goParseInt_goFormatInt 64 n (by omega) (by omega)]
    show (if overflowInt GoType.i64 n = true
          then some (Except.error (GoError.goMsg "overflow convert"))
          else some (Except.ok (GoValue.vInt n)))
        = some (Except.ok (GoValue.vInt n))
    rw [overflowInt_i64_false n h.1 h.2]
    simp
  case u64.vUint n =>
    simp only [roundTrippable, decide_eq_true_eq] at h
    rw [show readConvertCell [] buildDefaultConverts name .u64 (encodeField (.vUint n))
        (zeroValue .u64) = uintConversionOld (goFormatUint n) .u64 (zeroValue .u64) from rfl]
    unfold uintConversionOld
    rw [if_pos (goFormatUint_ne_empty n), goParseUint64_goFormatUint n h]
    show (if overflowUint GoType.u64 n = true
          then some (Except.error GoError.typeOverflow)
          else some (Except.ok (GoValue.vUint n)))
        = some (Except.ok (GoValue.vUint n))
    rw [overflowUint_u64_false n h]
    simp
  case f64.vFloat x =>
    rw [show readConvertCell [] buildDefaultConverts name .f64 (encodeField (.vFloat x))
        (zeroValue .f64) = floatConversionOld (goFormatFloat x) .f64 (zeroValue .f64) from rfl]
    unfold floatConversionOld
    rw [if_pos (goFormatFloat_ne_empty x), goParseFloat_goFormatFloat x]
    show (if overflowFloat GoType.f64 x = true
          then some (Except.error GoError.typeOverflow)
          else some (Except.ok (GoValue.vFloat x)))
        = some (Except.ok (GoValue.vFloat x))
    rfl
  case str.vStr str =>
    rfl
  case time.vTime t =>
    simp only [roundTrippable, Bool.and_eq_true, decide_eq_true_eq] at h
    rw [show readConvertCell [] buildDefaultConverts name .time (encodeField (.vTime t))
        (zeroValue .time)
        = timeConversionOld (String.mk (renderDateTimeChars t)) .time (zeroValue .time)
        from rfl]
    unfold timeConversionOld
    rw [if_pos (string_mk_ne_empty _ (renderDateTimeChars_ne_nil t))]
    rw [show (String.mk (renderDateTimeChars t)).data = renderDateTimeChars t from rfl,
      tryTimeFormats_dateTime 'A' t h.1 h.2]
  case nullStr.vNullStr str valid =>
    cases valid with
    | true =>
      simp only [roundTrippable, if_pos, decide_eq_true_eq] at h
      rw [show readConvertCell [] buildDefaultConverts name .nullStr
          (encodeField (.vNullStr str true)) (zeroValue .nullStr)
          = sqlNullStringConversion str .nullStr (zeroValue .nullStr) from rfl]
      unfold sqlNullStringConversion
      rw [if_pos h]
    | false =>
      have hs : str = "" := by simpa [roundTrippable] using h
      subst hs
      rfl
  case nullI64.vNullInt n valid =>
    cases valid with
    | true =>
      simp only [roundTrippable, if_pos, Bool.and_eq_true, decide_eq_true_eq] at h
      rw [show readConvertCell [] buildDefaultConverts name .nullI64
          (encodeField (.vNullInt n true)) (zeroValue .nullI64)
          = sqlNullInt64Conversion (goFormatInt n) .nullI64 (zeroValue .nullI64) from rfl]
      unfold sqlNullInt64Conversion
      rw [if_pos (goFormatInt_ne_empty n),
        goParseInt_goFormatInt 64 n (by omega) (by omega)]
    | false =>
      have hzero : n = 0 := by simpa [roundTrippable] using h
      subst hzero
      rfl
  case nullI32.vNullInt n valid =>
    cases valid with
    | true =>
      simp only [roundTrippable, if_pos, Bool.and_eq_true, decide_eq_true_eq] at h
      rw [show readConvertCell [] buildDefaultConverts name .nullI32
          (encodeField (.vNullInt n true)) (zeroValue .nullI32)
          = sqlNullInt32Conversion (goFormatInt n) .nullI32 (zeroValue .nullI32) from rfl]
      unfold sqlNullInt32Conversion
      rw [if_pos (goFormatInt_ne_empty n),
        goParseInt_goFormatInt 32 n (by omega) (by omega)]
    | false =>
      have hzero : n = 0 := by simpa [roundTrippable] using h
      subst hzero
      rfl
  case nullI16.vNullInt n valid =>
    cases valid with
    | true =>
      simp only [roundTrippable, if_pos, Bool.and_eq_true, decide_eq_true_eq] at h
      rw [show readConvertCell [] buildDefaultConverts name .nullI16
          (encodeField (.vNullInt n true)) (zeroValue .nullI16)
          = sqlNullInt16Conversion (goFormatInt n) .nullI16 (zeroValue .nullI16) from rfl]
      unfold sqlNullInt16Conversion
      rw [if_pos (goFormatInt_ne_empty n),
        goParseInt_goFormatInt 16 n (by omega) (by omega)]
    | false =>
      have hzero : n = 0 := by simpa [roundTrippable] using h
      subst hzero
      rfl
  case nullF64.vNullFloat x valid =>
    simp only [roundTrippable, Bool.and_eq_true, Bool.not_eq_true',
      decide_eq_true_eq] at h
    obtain ⟨hval, hx⟩ := h
    subst hval
    subst hx
    rfl
  case nullTime.vNullTime t valid =>
    cases valid with
    | true =>
      simp only [roundTrippable, if_pos, Bool.and_eq_true, decide_eq_true_eq] at h
      rw [show readConvertCell [] buildDefaultConverts name .nullTime
          (encodeField (.vNullTime t true)) (zeroValue .nullTime)
          = sqlNullTimeConversionOld (String.mk (renderDateTimeChars t)) .nullTime
            (zeroValue .nullTime) from rfl]
      unfold sqlNullTimeConversionOld
      rw [if_pos (string_mk_ne_empty _ (renderDateTimeChars_ne_nil t))]
      rw [show (String.mk (renderDateTimeChars t)).data = renderDateTimeChars t from rfl,
        tryTimeFormats_dateTime 'A' t h.1 h.2]
    | false =>
      have hzt : t = zeroGoTime := by simpa [roundTrippable] using h
      subst hzt
      rfl


/-- A plain single-segment tag: no comma (no options), nonempty, not the
exclusion marker. -/
def simpleName (n : String) : Prop := ',' ∉ n.data ∧ n ≠ "" ∧ n ≠ "-"

instance : DecidablePred simpleName := fun n =>
  inferInstanceAs (Decidable (',' ∉ n.data ∧ n ≠ "" ∧ n ≠ "-"))

theorem splitCommaChars_no_comma : ∀ l : List Char, ',' ∉ l → splitCommaChars l = [l]
  | [], _ => rfl
  | c :: rest, h => by
    have hc : c ≠ ',' := fun hc => h (hc ▸ List.mem_cons_self c rest)
    have hrest : ',' ∉ rest := fun hm => h (List.mem_cons_of_mem c hm)
    rw [show splitCommaChars (c :: rest)
        = (if c = ',' then [] :: splitCommaChars rest
           else match splitCommaChars rest with
                | [] => [[c]]
                | g :: gs => (c :: g) :: gs) from rfl,
      if_neg hc, splitCommaChars_no_comma rest hrest]

theorem splitOnComma_simple (n : String) (h : ',' ∉ n.data) : splitOnComma n = [n] := by
  unfold splitOnComma
  rw [splitCommaChars_no_comma n.data h]
  rfl

theorem resolvedNameExpr_simple (fw : Bool) (n : String) (h : ',' ∉ n.data) :
    (if fw = true ∧ 1 < (splitOnComma n).length
     then (splitOnComma n).drop 1 else splitOnComma n).headD "" = n := by
  rw [splitOnComma_simple n h]
  rw [if_neg (show ¬(fw = true ∧ 1 < ([n] : List String).length) from
    fun hc => by simp at hc)]
  rfl

theorem tagResolvedName_simple (fw : Bool) (n : String) (h : simpleName n) :
    tagResolvedName fw (some n) = some n := by
  unfold tagResolvedName
  simp only
  rw [resolvedNameExpr_simple fw n h.1]
  rw [if_pos ⟨h.2.1, h.2.2⟩]

theorem buildTagIndexAux_simple (fw : Bool) :
    ∀ (names : List String) (i : Nat) (acc : List (String × Nat)),
      (∀ n ∈ names, simpleName n) → names.Nodup →
      (∀ n ∈ names, lookupA acc n = none) →
      buildTagIndexAux fw (names.map some) i acc
        = .ok (acc ++ names.zip (List.range' i names.length))
  | [], i, acc, _, _, _ => by simp [buildTagIndexAux]
  | n :: rest, i, acc, hs, hnd, hacc => by
    rw [show (n :: rest).map some = some n :: rest.map some from rfl]
    rw [show buildTagIndexAux fw (some n :: rest.map some) i acc
        = (let parts0 := splitOnComma n
           let parts := if fw ∧ 1 < parts0.length then parts0.drop 1 else parts0
           let name := parts.headD ""
           if (lookupA acc name).isSome then .error .structTagDuplicate
           else if name ≠ "" ∧ name ≠ "-" then
             buildTagIndexAux fw (rest.map some) (i + 1) (acc ++ [(name, i)])
           else buildTagIndexAux fw (rest.map some) (i + 1) acc) from rfl]
    simp only
    have hn := hs n (List.mem_cons_self n rest)
    rw [resolvedNameExpr_simple fw n hn.1]
    rw [hacc n (List.mem_cons_self n rest)]
    rw [show (none : Option Nat).isSome = false from rfl]
    rw [if_neg (Bool.false_ne_true), if_pos ⟨hn.2.1, hn.2.2⟩]
    rw [buildTagIndexAux_simple fw rest (i + 1) (acc ++ [(n, i)])
      (fun m hm => hs m (List.mem_cons_of_mem n hm))
      (List.nodup_cons.mp hnd).2
      (fun m hm => by
        rw [lookupA_append, hacc m (List.mem_cons_of_mem n hm), lookupA_singleton]
        rw [if_neg (show ¬(m = n) from
          fun hc => (List.nodup_cons.mp hnd).1 (hc ▸ hm))])]
    rw [show List.range' i (n :: rest).length = i :: List.range' (i + 1) rest.length
      from by rw [List.length_cons, List.range'_succ]]
    simp [List.append_assoc]

theorem buildReflectTagIndexCache_simple (fw : Bool) (names : List String)
    (hs : ∀ n ∈ names, simpleName n) (hnd : names.Nodup) :
    buildReflectTagIndexCache (names.map some) fw
      = .ok (names.zip (List.range' 0 names.length)) := by
  unfold buildReflectTagIndexCache
  rw [buildTagIndexAux_simple fw names 0 [] hs hnd (fun _ _ => rfl)]
  rfl

theorem lookupA_zip_get (names : List String) (hnd : names.Nodup) :
    ∀ (off j : Nat) (hj : j < names.length),
      lookupA (names.zip (List.range' off names.length)) (names.get ⟨j, hj⟩)
        = some (off + j) := by
  induction names with
  | nil => intro off j hj; exact absurd hj (by simp)
  | cons n rest ih =>
    intro off j hj
    rw [show List.range' off (n :: rest).length
        = off :: List.range' (off + 1) rest.length
      from by rw [List.length_cons, List.range'_succ]]
    rw [List.zip_cons_cons]
    cases j with
    | zero =>
      rw [show (n :: rest).get ⟨0, hj⟩ = n from rfl, lookupA_cons, if_pos rfl,
        Nat.add_zero]
    | succ j =>
      have hj' : j < rest.length := by simpa using hj
      rw [show (n :: rest).get ⟨j + 1, hj⟩ = rest.get ⟨j, hj'⟩ from rfl, lookupA_cons]
      rw [if_neg (show ¬(rest.get ⟨j, hj'⟩ = n) from fun hc =>
        (List.nodup_cons.mp hnd).1 (hc ▸ List.get_mem rest j hj'))]
      rw [ih (List.nodup_cons.mp hnd).2 (off + 1) j hj']
      congr 1
      omega

theorem lookupA_zipNat_get (names : List String) :
    ∀ (off j : Nat) (hj : j < names.length),
      lookupA ((List.range' off names.length).zip names) (off + j)
        = some (names.get ⟨j, hj⟩) := by
  induction names with
  | nil => intro off j hj; exact absurd hj (by simp)
  | cons n rest ih =>
    intro off j hj
    rw [show List.range' off (n :: rest).length
        = off :: List.range' (off + 1) rest.length
      from by rw [List.length_cons, List.range'_succ]]
    rw [List.zip_cons_cons]
    cases j with
    | zero =>
      rw [lookupA_cons, if_pos (by omega)]
      rfl
    | succ j =>
      have hj' : j < rest.length := by simpa using hj
      rw [lookupA_cons, if_neg (by omega)]
      rw [show off + (j + 1) = (off + 1) + j by omega, ih (off + 1) j hj']
      rfl

theorem lookupA_zip_isSome (names : List String) :
    ∀ (off : Nat) (k : String), k ∈ names →
      (lookupA (names.zip (List.range' off names.length)) k).isSome = true := by
  induction names with
  | nil => intro off k hk; exact absurd hk (by simp)
  | cons n rest ih =>
    intro off k hk
    rw [show List.range' off (n :: rest).length
        = off :: List.range' (off + 1) rest.length
      from by rw [List.length_cons, List.range'_succ]]
    rw [List.zip_cons_cons, lookupA_cons]
    by_cases hkn : k = n
    · rw [if_pos hkn]; rfl
    · rw [if_neg hkn]
      exact ih (off + 1) k ((List.mem_cons.mp hk).resolve_left hkn)

theorem lookupA_zip_eq_none (names : List String) :
    ∀ (ks : List Nat) (k : String), k ∉ names → lookupA (names.zip ks) k = none := by
  induction names with
  | nil => intro ks k _; rw [List.zip_nil_left]; rfl
  | cons n rest ih =>
    intro ks k hk
    cases ks with
    | nil => rfl
    | cons m ms =>
      rw [List.zip_cons_cons, lookupA_cons,
        if_neg (show ¬(k = n) from fun hc => hk (hc ▸ List.mem_cons_self n rest))]
      exact ih ms k (fun hm => hk (List.mem_cons_of_mem n hm))

theorem buildWriteAux_canonical (tags : List (String × Nat)) :
    ∀ (cols : List String) (j : Nat) (ni : List (String × Nat))
      (iname : List (Nat × String)),
      cols.Nodup → (∀ c ∈ cols, (lookupA tags c).isSome = true) →
      (∀ c ∈ cols, lookupA ni c = none) →
      buildWriteHeaderNameIndexCacheAux tags cols j ni iname
        = .ok (ni ++ cols.zip (List.range' j cols.length),
               iname ++ (List.range' j cols.length).zip cols)
  | [], j, ni, iname, _, _, _ => by simp [buildWriteHeaderNameIndexCacheAux]
  | c :: rest, j, ni, iname, hnd, htags, hni => by
    rw [show buildWriteHeaderNameIndexCacheAux tags (c :: rest) j ni iname
        = (if (lookupA ni c).isSome then .error .duplicateHeaderInCSV
           else if (lookupA tags c).isSome then
             buildWriteHeaderNameIndexCacheAux tags rest (j + 1)
               (ni ++ [(c, j)]) (iname ++ [(j, c)])
           else .error .structTagNotInCSV) from rfl]
    rw [hni c (List.mem_cons_self c rest)]
    rw [show (none : Option Nat).isSome = false from rfl]
    rw [if_neg (Bool.false_ne_true), if_pos (htags c (List.mem_cons_self c rest))]
    rw [buildWriteAux_canonical tags rest (j + 1) (ni ++ [(c, j)]) (iname ++ [(j, c)])
      (List.nodup_cons.mp hnd).2
      (fun m hm => htags m (List.mem_cons_of_mem c hm))
      (fun m hm => by
        rw [lookupA_append, hni m (List.mem_cons_of_mem c hm), lookupA_singleton]
        rw [if_neg (show ¬(m = c) from
          fun hc => (List.nodup_cons.mp hnd).1 (hc ▸ hm))])]
    rw [show List.range' j (c :: rest).length = j :: List.range' (j + 1) rest.length
      from by rw [List.length_cons, List.range'_succ]]
    simp [List.append_assoc]

theorem scanHeader_canonical (tags : List (String × Nat)) :
    ∀ (cols : List String) (j : Nat) (ni : List (String × Nat))
      (iname : List (Nat × String)),
      cols.Nodup → (∀ c ∈ cols, (lookupA tags c).isSome = true) →
      (∀ c ∈ cols, lookupA ni c = none) →
      scanHeader tags cols j ni iname
        = .ok (ni ++ cols.zip (List.range' j cols.length),
               iname ++ (List.range' j cols.length).zip cols)
  | [], j, ni, iname, _, _, _ => by simp [scanHeader]
  | c :: rest, j, ni, iname, hnd, htags, hni => by
    rw [show scanHeader tags (c :: rest) j ni iname
        = (if (lookupA ni c).isSome then .error .duplicateHeaderInCSV
           else if (lookupA tags c).isSome then
             scanHeader tags rest (j + 1) (ni ++ [(c, j)]) (iname ++ [(j, c)])
           else scanHeader tags rest (j + 1) ni iname) from rfl]
    rw [hni c (List.mem_cons_self c rest)]
    rw [show (none : Option Nat).isSome = false from rfl]
    rw [if_neg (Bool.false_ne_true), if_pos (htags c (List.mem_cons_self c rest))]
    rw [scanHeader_canonical tags rest (j + 1) (ni ++ [(c, j)]) (iname ++ [(j, c)])
      (List.nodup_cons.mp hnd).2
      (fun m hm => htags m (List.mem_cons_of_mem c hm))
      (fun m hm => by
        rw [lookupA_append, hni m (List.mem_cons_of_mem c hm), lookupA_singleton]
        rw [if_neg (show ¬(m = c) from
          fun hc => (List.nodup_cons.mp hnd).1 (hc ▸ hm))])]
    rw [show List.range' j (c :: rest).length = j :: List.range' (j + 1) rest.length
      from by rw [List.length_cons, List.range'_succ]]
    simp [List.append_assoc]

theorem buildHeaderNameIndexCache_canonical (names : List String) (hnd : names.Nodup) :
    buildHeaderNameIndexCache names (names.zip (List.range' 0 names.length))
        ((names.zip (List.range' 0 names.length)).map Prod.fst)
      = .ok (names.zip (List.range' 0 names.length),
             (List.range' 0 names.length).zip names) := by
  unfold buildHeaderNameIndexCache
  rw [scanHeader_canonical (names.zip (List.range' 0 names.length)) names 0 [] []
    hnd (fun c hc => lookupA_zip_isSome names 0 c hc) (fun _ _ => rfl)]
  show (if ((names.zip (List.range' 0 names.length)).map Prod.fst).any
        (fun k => (lookupA ([] ++ names.zip (List.range' 0 names.length)) k).isNone)
      then Except.error GoError.structTagNotInCSV
      else .ok ([] ++ names.zip (List.range' 0 names.length),
                [] ++ (List.range' 0 names.length).zip names))
    = .ok (names.zip (List.range' 0 names.length), (List.range' 0 names.length).zip names)
  rw [List.map_fst_zip names (List.range' 0 names.length) (by simp)]
  rw [List.any_eq_false.mpr (fun k hk => by
    intro hcon
    have hsome := lookupA_zip_isSome names 0 k hk
    rw [List.nil_append] at hcon
    cases hcc : lookupA (names.zip (List.range' 0 names.length)) k with
    | none => rw [hcc] at hsome; exact Bool.noConfusion hsome
    | some v => rw [hcc] at hcon; exact Bool.noConfusion hcon)]
  rw [if_neg (Bool.false_ne_true)]
  simp


theorem zip_get?_some {α β : Type} :
    ∀ (l₁ : List α) (l₂ : List β) (j : Nat) (x : α) (y : β),
      l₁.get? j = some x → l₂.get? j = some y → (l₁.zip l₂).get? j = some (x, y)
  | [], _, j, _, _, h, _ => by simp at h
  | _ :: _, [], j, _, _, _, h => by simp at h
  | a :: l₁, b :: l₂, 0, x, y, h₁, h₂ => by
    rw [List.zip_cons_cons]
    simp only [List.get?] at h₁ h₂ ⊢
    rw [Option.some.injEq] at h₁ h₂
    rw [h₁, h₂]
  | a :: l₁, b :: l₂, j + 1, x, y, h₁, h₂ => by
    rw [List.zip_cons_cons]
    simp only [List.get?] at h₁ h₂ ⊢
    exact zip_get?_some l₁ l₂ j x y h₁ h₂

theorem set_take_succ {α : Type} (l : List α) (j : Nat) (hj : j < l.length) (e : α) :
    (l.set j e).take (j + 1) = l.take j ++ [e] := by
  rw [List.set_eq_take_cons_drop e hj, List.take_append_eq_append_take,
    List.take_of_length_le (by rw [List.length_take]; omega),
    List.length_take, Nat.min_eq_left (by omega),
    show j + 1 - j = 1 from by omega]
  rfl

theorem defaultSort_canonical (names : List String) :
    defaultSort (names.zip (List.range' 0 names.length)) = some names := by
  have hlen : (names.zip (List.range' 0 names.length)).length = names.length := by
    rw [List.length_zip, List.length_range', Nat.min_self]
  rw [defaultSort_of_range _ (by
    rw [List.map_snd_zip names (List.range' 0 names.length) (by simp), hlen,
      List.range_eq_range'])]
  rw [List.map_fst_zip names (List.range' 0 names.length) (by simp)]

theorem buildWriteHeaderNameIndexCache_canonical (names : List String)
    (hnd : names.Nodup) :
    buildWriteHeaderNameIndexCache names (names.zip (List.range' 0 names.length))
      = .ok (names.zip (List.range' 0 names.length),
             (List.range' 0 names.length).zip names) := by
  unfold buildWriteHeaderNameIndexCache
  rw [buildWriteAux_canonical (names.zip (List.range' 0 names.length)) names 0 [] []
    hnd (fun c hc => lookupA_zip_isSome names 0 c hc) (fun _ _ => rfl)]
  simp

/-- `NewFileWriter` on simple distinct tags and the default output order:
opens successfully with the names in declaration order and the three
zip-range tables. -/
theorem NewFileWriter_simple (names : List String)
    (hs : ∀ n ∈ names, simpleName n) (hnd : names.Nodup) :
    NewFileWriter (names.map some) none
      = some ⟨true, false, .ok ⟨names, names.zip (List.range' 0 names.length),
          names.zip (List.range' 0 names.length),
          (List.range' 0 names.length).zip names⟩⟩ := by
  unfold NewFileWriter
  rw [buildReflectTagIndexCache_simple true names hs hnd]
  show (match defaultSort (names.zip (List.range' 0 names.length)) with
        | none => (none : Option WriterOpen)
        | some sort0 =>
          match buildWriteHeaderNameIndexCache sort0
              (names.zip (List.range' 0 names.length)) with
          | .error e => some ⟨true, true, .error e⟩
          | .ok (ni, iname) =>
            some ⟨true, false,
              .ok ⟨sort0, names.zip (List.range' 0 names.length), ni, iname⟩⟩)
      = some ⟨true, false, .ok ⟨names, names.zip (List.range' 0 names.length),
          names.zip (List.range' 0 names.length),
          (List.range' 0 names.length).zip names⟩⟩
  rw [defaultSort_canonical names]
  show ((match buildWriteHeaderNameIndexCache names
          (names.zip (List.range' 0 names.length)) with
        | .error e => some ⟨true, true, .error e⟩
        | .ok (ni, iname) =>
          some ⟨true, false,
            .ok ⟨names, names.zip (List.range' 0 names.length), ni, iname⟩⟩) :
        Option WriterOpen)
      = some ⟨true, false, .ok ⟨names, names.zip (List.range' 0 names.length),
          names.zip (List.range' 0 names.length),
          (List.range' 0 names.length).zip names⟩⟩
  rw [buildWriteHeaderNameIndexCache_canonical names hnd]


theorem drop_eq_cons_of_get? {α : Type} :
    ∀ (l : List α) (j : Nat) (a : α), l.get? j = some a → l.drop j = a :: l.drop (j + 1)
  | [], j, a, h => by simp at h
  | x :: l, 0, a, h => by
    simp only [List.get?] at h
    rw [Option.some.injEq] at h
    rw [← h]
    rfl
  | x :: l, j + 1, a, h => by
    rw [List.drop_succ_cons, drop_eq_cons_of_get? l j a (by simpa using h)]
    rfl

theorem writeRecordAux_cons (custom : List (String × WConv))
    (defaults : List (GoType × WConv)) (headerIndex : List (String × Nat))
    (vals : List (GoType × GoValue)) (fieldName : String) (fieldIndex : Nat)
    (rest : List (String × Nat)) (row : List String) :
    writeRecordAux custom defaults headerIndex vals ((fieldName, fieldIndex) :: rest) row
      = match lookupA headerIndex fieldName with
        | none => writeRecordAux custom defaults headerIndex vals rest row
        | some outIndex =>
          match vals.get? fieldIndex with
          | none => none
          | some (ty, v) =>
            match writeConvertCell custom defaults fieldName ty v with
            | none => none
            | some (.error e) => some (.error e)
            | some (.ok str) =>
              if outIndex < row.length then
                writeRecordAux custom defaults headerIndex vals rest (row.set outIndex str)
              else none := rfl

/-- The row loop of `FileWriter.Write` on the canonical tables: each bound
field writes its encoded value into its own slot, producing exactly the
encoded record. -/
theorem writeRecordAux_canonical (names : List String) (tys : List GoType)
    (vals : List GoValue) (hnd : names.Nodup)
    (hlt : tys.length = names.length) (hlv : vals.length = names.length)
    (hrt : ∀ p ∈ tys.zip vals, roundTrippable p.1 p.2 = true) :
    ∀ (ns : List String) (j : Nat) (row : List String),
      ns = names.drop j → j + ns.length = names.length →
      row.length = names.length →
      writeRecordAux [] buildWriteDefaultConverters
          (names.zip (List.range' 0 names.length)) (tys.zip vals)
          (ns.zip (List.range' j ns.length)) row
        = some (.ok (row.take j ++ (vals.map encodeField).drop j))
  | [], j, row, hdrop, hlen, hrow => by
    rw [show (([] : List String).zip (List.range' j ([] : List String).length))
        = [] from rfl]
    show some (Except.ok row) = _
    rw [List.take_of_length_le (by simp at hlen; omega),
      List.drop_eq_nil_of_le (by rw [List.length_map]; simp at hlen; omega)]
    simp
  | c :: ns', j, row, hdrop, hlen, hrow => by
    rw [List.length_cons] at hlen
    have hj : j < names.length := by omega
    have hgetc : names.get? j = some c := by
      have h0 : (names.drop j).get? 0 = some c := by rw [← hdrop]; rfl
      rw [List.get?_drop] at h0
      simpa using h0
    have hgetc' : names.get ⟨j, hj⟩ = c := by
      have hge := List.get?_eq_get (l := names) hj
      rw [hgetc] at hge
      injection hge with hge
      exact hge.symm
    have hlookup : lookupA (names.zip (List.range' 0 names.length)) c = some j := by
      rw [← hgetc', lookupA_zip_get names hnd 0 j hj, Nat.zero_add]
    have hjt : j < tys.length := by omega
    have hjv : j < vals.length := by omega
    obtain ⟨tyj, htyj⟩ : ∃ t, tys.get? j = some t := by
      cases hc : tys.get? j with
      | none => exact absurd (List.get?_eq_none.mp hc) (by omega)
      | some t => exact ⟨t, rfl⟩
    obtain ⟨vj, hvj⟩ : ∃ v, vals.get? j = some v := by
      cases hc : vals.get? j with
      | none => exact absurd (List.get?_eq_none.mp hc) (by omega)
      | some v => exact ⟨v, rfl⟩
    have hzget : (tys.zip vals).get? j = some (tyj, vj) := zip_get?_some tys vals j tyj vj htyj hvj
    have hrtj : roundTrippable tyj vj = true := hrt (tyj, vj) (List.get?_mem hzget)
    rw [show List.range' j (c :: ns').length = j :: List.range' (j + 1) ns'.length
      from by rw [List.length_cons, List.range'_succ]]
    rw [List.zip_cons_cons, writeRecordAux_cons, hlookup]
    show (match (tys.zip vals).get? j with
          | none => (none : Option (Except GoError (List String)))
          | some (ty, v) =>
            match writeConvertCell [] buildWriteDefaultConverters c ty v with
            | none => none
            | some (.error e) => some (.error e)
            | some (.ok str) =>
              if j < row.length then
                writeRecordAux [] buildWriteDefaultConverters
                  (names.zip (List.range' 0 names.length)) (tys.zip vals)
                  (ns'.zip (List.range' (j + 1) ns'.length)) (row.set j str)
              else none)
        = some (.ok (row.take j ++ (vals.map encodeField).drop j))
    rw [hzget]
    show (match writeConvertCell [] buildWriteDefaultConverters c tyj vj with
          | none => (none : Option (Except GoError (List String)))
          | some (.error e) => some (.error e)
          | some (.ok str) =>
            if j < row.length then
              writeRecordAux [] buildWriteDefaultConverters
                (names.zip (List.range' 0 names.length)) (tys.zip vals)
                (ns'.zip (List.range' (j + 1) ns'.length)) (row.set j str)
            else none)
        = some (.ok (row.take j ++ (vals.map encodeField).drop j))
    rw [write_default_encodes tyj vj c hrtj]
    show (if j < row.length then
            writeRecordAux [] buildWriteDefaultConverters
              (names.zip (List.range' 0 names.length)) (tys.zip vals)
              (ns'.zip (List.range' (j + 1) ns'.length)) (row.set j (encodeField vj))
          else none)
        = some (.ok (row.take j ++ (vals.map encodeField).drop j))
    rw [if_pos (show j < row.length from by omega)]
    have hdrop' : ns' = names.drop (j + 1) := by
      have hdd := List.drop_drop 1 j names
      rw [← hdrop] at hdd
      rw [← hdd]
      rfl
    rw [writeRecordAux_canonical names tys vals hnd hlt hlv hrt ns' (j + 1)
      (row.set j (encodeField vj)) hdrop' (by omega) (by rw [List.length_set]; omega)]
    rw [set_take_succ row j (by omega) (encodeField vj)]
    rw [show (vals.map encodeField).drop j
        = encodeField vj :: (vals.map encodeField).drop (j + 1) from by
      rw [drop_eq_cons_of_get? (vals.map encodeField) j (encodeField vj)
        (by rw [List.get?_map, hvj]; rfl)]]
    simp [List.append_assoc]


theorem readRecordAux_cons (custom : List (String × RConv))
    (defaults : List (GoType × RConv)) (reflectIndexes : List (String × Nat))
    (indexHeader : List (Nat × String)) (schema : List GoType) (cell : String)
    (rest : List String) (i : Nat) (rec : List GoValue) :
    readRecordAux custom defaults reflectIndexes indexHeader schema (cell :: rest) i rec
      = match lookupA indexHeader i with
        | none =>
          readRecordAux custom defaults reflectIndexes indexHeader schema rest (i + 1) rec
        | some hrName =>
          let tagFieldIndex := (lookupA reflectIndexes hrName).getD 0
          match schema.get? tagFieldIndex, rec.get? tagFieldIndex with
          | some ty, some cur =>
            match readConvertCell custom defaults hrName ty cell cur with
            | none => none
            | some (.error e) => some (.error e)
            | some (.ok v) =>
              readRecordAux custom defaults reflectIndexes indexHeader schema rest (i + 1)
                (rec.set tagFieldIndex v)
          | _, _ => none := rfl

/-- The cell loop of `FileReader.Read` on the canonical tables and the
encoded row: starting from the zero record, each bound position decodes back
to the original field value, so the loop reproduces the record. -/
theorem readRecordAux_canonical (names : List String) (tys : List GoType)
    (vals : List GoValue) (hnd : names.Nodup)
    (hlt : tys.length = names.length) (hlv : vals.length = names.length)
    (hrt : ∀ p ∈ tys.zip vals, roundTrippable p.1 p.2 = true) :
    ∀ (ns : List String) (i : Nat) (rec : List GoValue),
      ns = names.drop i → i + ns.length = names.length →
      rec = vals.take i ++ (tys.map zeroValue).drop i →
      readRecordAux [] buildDefaultConverts (names.zip (List.range' 0 names.length))
          ((List.range' 0 names.length).zip names) tys
          ((vals.map encodeField).drop i) i rec
        = some (.ok vals)
  | [], i, rec, hdrop, hlen, hrec => by
    simp only [List.length_nil] at hlen
    rw [List.drop_eq_nil_of_le (by rw [List.length_map]; omega)]
    show some (Except.ok rec) = some (.ok vals)
    rw [hrec, List.take_of_length_le (by omega),
      List.drop_eq_nil_of_le (by rw [List.length_map]; omega)]
    simp
  | c :: ns', i, rec, hdrop, hlen, hrec => by
    rw [List.length_cons] at hlen
    have hi : i < names.length := by omega
    have hgetc : names.get? i = some c := by
      have h0 : (names.drop i).get? 0 = some c := by rw [← hdrop]; rfl
      rw [List.get?_drop] at h0
      simpa using h0
    have hgetc' : names.get ⟨i, hi⟩ = c := by
      have hge := List.get?_eq_get (l := names) hi
      rw [hgetc] at hge
      injection hge with hge
      exact hge.symm
    have hit : i < tys.length := by omega
    have hiv : i < vals.length := by omega
    obtain ⟨tyi, hti⟩ : ∃ t, tys.get? i = some t := by
      cases hc : tys.get? i with
      | none => exact absurd (List.get?_eq_none.mp hc) (by omega)
      | some t => exact ⟨t, rfl⟩
    obtain ⟨vi, hvi⟩ : ∃ v, vals.get? i = some v := by
      cases hc : vals.get? i with
      | none => exact absurd (List.get?_eq_none.mp hc) (by omega)
      | some v => exact ⟨v, rfl⟩
    have hrti : roundTrippable tyi vi = true :=
      hrt (tyi, vi) (List.get?_mem (zip_get?_some tys vals i tyi vi hti hvi))
    have htakelen : (vals.take i).length = i := by
      rw [List.length_take, Nat.min_eq_left (by omega)]
    have hreci : rec.get? i = some (zeroValue tyi) := by
      rw [hrec, List.get?_append_right (by omega), htakelen, Nat.sub_self,
        List.get?_drop, Nat.add_zero, List.get?_map, hti]
      rfl
    have hlookup : lookupA (names.zip (List.range' 0 names.length)) c = some i := by
      rw [← hgetc', lookupA_zip_get names hnd 0 i hi, Nat.zero_add]
    have hlook1 : lookupA ((List.range' 0 names.length).zip names) i = some c := by
      have hz := lookupA_zipNat_get names 0 i hi
      rw [Nat.zero_add] at hz
      rw [hz, hgetc']
    rw [drop_eq_cons_of_get? (vals.map encodeField) i (encodeField vi)
      (by rw [List.get?_map, hvi]; rfl)]
    rw [readRecordAux_cons, hlook1]
    show (let tagFieldIndex := (lookupA (names.zip (List.range' 0 names.length)) c).getD 0
          match tys.get? tagFieldIndex, rec.get? tagFieldIndex with
          | some ty, some cur =>
            match readConvertCell [] buildDefaultConverts c ty (encodeField vi) cur with
            | none => (none : Option (Except GoError (List GoValue)))
            | some (.error e) => some (.error e)
            | some (.ok v) =>
              readRecordAux [] buildDefaultConverts (names.zip (List.range' 0 names.length))
                ((List.range' 0 names.length).zip names) tys
                ((vals.map encodeField).drop (i + 1)) (i + 1) (rec.set tagFieldIndex v)
          | _, _ => none)
        = some (.ok vals)
    rw [hlookup]
    show (match tys.get? i, rec.get? i with
          | some ty, some cur =>
            match readConvertCell [] buildDefaultConverts c ty (encodeField vi) cur with
            | none => (none : Option (Except GoError (List GoValue)))
            | some (.error e) => some (.error e)
            | some (.ok v) =>
              readRecordAux [] buildDefaultConverts (names.zip (List.range' 0 names.length))
                ((List.range' 0 names.length).zip names) tys
                ((vals.map encodeField).drop (i + 1)) (i + 1) (rec.set i v)
          | _, _ => none)
        = some (.ok vals)
    rw [hti, hreci]
    show (match readConvertCell [] buildDefaultConverts c tyi (encodeField vi)
            (zeroValue tyi) with
          | none => (none : Option (Except GoError (List GoValue)))
          | some (.error e) => some (.error e)
          | some (.ok v) =>
            readRecordAux [] buildDefaultConverts (names.zip (List.range' 0 names.length))
              ((List.range' 0 names.length).zip names) tys
              ((vals.map encodeField).drop (i + 1)) (i + 1) (rec.set i v))
        = some (.ok vals)
    rw [read_default_decodes tyi vi c hrti]
    show readRecordAux [] buildDefaultConverts (names.zip (List.range' 0 names.length))
        ((List.range' 0 names.length).zip names) tys
        ((vals.map encodeField).drop (i + 1)) (i + 1) (rec.set i vi)
      = some (.ok vals)
    have hdrop' : ns' = names.drop (i + 1) := by
      have hdd := List.drop_drop 1 i names
      rw [← hdrop] at hdd
      rw [← hdd]
      rfl
    have hrecl : i < rec.length := by
      rw [hrec, List.length_append, htakelen, List.length_drop, List.length_map]
      omega
    have hrec' : rec.set i vi = vals.take (i + 1) ++ (tys.map zeroValue).drop (i + 1) := by
      rw [List.set_eq_take_cons_drop vi hrecl]
      have ht : rec.take i = vals.take i := by
        rw [hrec, List.take_append_eq_append_take, List.take_take,
          Nat.min_self, htakelen, Nat.sub_self]
        simp
      have hd : rec.drop (i + 1) = (tys.map zeroValue).drop (i + 1) := by
        rw [hrec, List.drop_append_eq_append_drop,
          List.drop_eq_nil_of_le (by rw [htakelen]; omega), htakelen,
          show i + 1 - i = 1 from by omega, List.nil_append]
        have hdd := List.drop_drop 1 i (tys.map zeroValue)
        rw [hdd]
      rw [ht, hd, List.take_succ, show vals[i]? = some vi from by
        rw [← List.get?_eq_getElem?]
        exact hvi]
      simp
    rw [readRecordAux_canonical names tys vals hnd hlt hlv hrt ns' (i + 1)
      (rec.set i vi) hdrop' (by omega) hrec']


/-- C1 counterexample: the claimed round trip fails as stated.
(1) A `bool` field (a "default-covered type" per the claim) has no entry in
the read registry `NewFileReader` installs (`buildDefaultConverts`), so
reading back a written bool fails with `ErrConverterNotFoundForType`.
(2,3) A timestamp with sub-second precision comes back truncated — the
`time.DateTime` layout drops nanoseconds — so the read record differs from
the written one.
(4) A null wrapper in the null state with a nonzero payload
(`NullInt64{Int64: 5, Valid: false}`) is written as the empty cell and read
back as the zero value `NullInt64{0, false}`, not field-for-field equal.
(5) A *valid* `sql.NullFloat64` (a "valid state" the claim covers) panics on
read: the old converter calls `OverflowFloat` on the struct-kind value. -/
theorem C1_round_trip_cx :
    roundTripRecord [("b", .bool)] [.vBool true]
        = some (.error .converterNotFoundForType)
    ∧ roundTripRecord [("t", .time)] [.vTime ⟨2021, 3, 4, 5, 6, 7, 1⟩]
        = some (.ok [.vTime ⟨2021, 3, 4, 5, 6, 7, 0⟩])
    ∧ roundTripRecord [("t", .time)] [.vTime ⟨2021, 3, 4, 5, 6, 7, 1⟩]
        ≠ some (.ok [.vTime ⟨2021, 3, 4, 5, 6, 7, 1⟩])
    ∧ roundTripRecord [("n", .nullI64)] [.vNullInt 5 false]
        = some (.ok [.vNullInt 0 false])
    ∧ roundTripRecord [("f", .nullF64)] [.vNullFloat ⟨1, 0⟩ true] = none := by
  set_option maxRecDepth 100000 in decide

/-- C1 (amended): writing a record with the default write converters and
reading the row back with the default read converters (`buildDefaultConverts`)
reproduces the record field-for-field, provided every field is
round-trippable: plain single-segment distinct tag names, payloads of the
declared type within its range, timestamps at second precision, null
wrappers either valid and non-degenerate or in the zero null state,
`sql.NullFloat64` only null, and no `bool`/`sql.NullBool` fields
(`roundTrippable` excludes the states of `C1_round_trip_cx`). -/
theorem C1_round_trip_default_converters (schema : List (String × GoType))
    (vals : List GoValue)
    (hnd : (schema.map Prod.fst).Nodup)
    (hs : ∀ n ∈ schema.map Prod.fst, simpleName n)
    (hlen : vals.length = schema.length)
    (hrt : ∀ p ∈ (schema.map Prod.snd).zip vals, roundTrippable p.1 p.2 = true) :
    roundTripRecord schema vals = some (.ok vals) := by
  unfold roundTripRecord
  simp only
  have hfields : schema.map (fun p => some p.1) = (schema.map Prod.fst).map some := by
    rw [List.map_map]
    rfl
  set names := schema.map Prod.fst with hnames
  set tys := schema.map Prod.snd with htys
  have hlt : tys.length = names.length := by rw [htys, hnames]; simp
  have hlv : vals.length = names.length := by rw [hnames]; simpa using hlen
  rw [hfields, NewFileWriter_simple names hs hnd]
  show (match writeRecord [] buildWriteDefaultConverters
          (names.zip (List.range' 0 names.length))
          (names.zip (List.range' 0 names.length)) names.length (tys.zip vals) with
        | none => (none : Option (Except GoError (List GoValue)))
        | some (.error e) => some (.error e)
        | some (.ok row) =>
          match buildReflectTagIndexCache (names.map some) false with
          | .error e => some (.error e)
          | .ok readIndexes =>
            match buildHeaderNameIndexCache names readIndexes
                (readIndexes.map Prod.fst) with
            | .error e => some (.error e)
            | .ok (_nameIndex, indexName) =>
              readRecord [] buildDefaultConverts readIndexes indexName tys row)
      = some (.ok vals)
  unfold writeRecord
  rw [writeRecordAux_canonical names tys vals hnd hlt hlv hrt names 0
    (List.replicate names.length "") (List.drop_zero names).symm (by simp) (by simp)]
  show (match buildReflectTagIndexCache (names.map some) false with
        | .error e => some (.error e)
        | .ok readIndexes =>
          match buildHeaderNameIndexCache names readIndexes
              (readIndexes.map Prod.fst) with
          | .error e => some (.error e)
          | .ok (_nameIndex, indexName) =>
            readRecord [] buildDefaultConverts readIndexes indexName tys
              (vals.map encodeField))
      = some (.ok vals)
  rw [buildReflectTagIndexCache_simple false names hs hnd]
  show (match buildHeaderNameIndexCache names (names.zip (List.range' 0 names.length))
          ((names.zip (List.range' 0 names.length)).map Prod.fst) with
        | .error e => some (.error e)
        | .ok (_nameIndex, indexName) =>
          readRecord [] buildDefaultConverts (names.zip (List.range' 0 names.length))
            indexName tys (vals.map encodeField))
      = some (.ok vals)
  rw [buildHeaderNameIndexCache_canonical names hnd]
  show readRecord [] buildDefaultConverts (names.zip (List.range' 0 names.length))
      ((List.range' 0 names.length).zip names) tys (vals.map encodeField)
    = some (.ok vals)
  unfold readRecord
  exact readRecordAux_canonical names tys vals hnd hlt hlv hrt names 0
    (tys.map zeroValue) (List.drop_zero names).symm (by simp) (by simp)

/-- C1 witness: a concrete four-field record (int64, string, second-precision
timestamp, valid NullInt64) round-trips to itself through the full engine
pipeline. -/
theorem C1_round_trip_default_converters_witness :
    roundTripRecord
        [("n", .i64), ("s", .str), ("t", .time), ("ni", .nullI64)]
        [.vInt (-5), .vStr "hi", .vTime ⟨2021, 3, 4, 5, 6, 7, 0⟩, .vNullInt 9 true]
      = some (.ok [.vInt (-5), .vStr "hi", .vTime ⟨2021, 3, 4, 5, 6, 7, 0⟩,
          .vNullInt 9 true]) :=
  C1_round_trip_default_converters
    [("n", .i64), ("s", .str), ("t", .time), ("ni", .nullI64)]
    [.vInt (-5), .vStr "hi", .vTime ⟨2021, 3, 4, 5, 6, 7, 0⟩, .vNullInt 9 true]
    (by decide) (by decide) (by decide) (by decide)

end Csvdoc
